import Mathlib

/-!
Verification of the `crdt` library (counters, registers and sets with
state-based `merge` and operation-based `apply`).

The Rust code stores CRDT state in `TrieMap` / `HashMap` containers.  We model
a map as an association list whose keys are strictly increasing; this is a
canonical form, so two maps are (structurally) equal exactly when they hold the
same key/value pairs, which matches `PartialEq` on the Rust containers.  Keys
are `Nat` (`ReplicaId` and `TransactionId` wrap `u64`, and set elements are
instantiated at an integer type, as in the repository's tests).  `u64`
arithmetic is modelled on `Nat`: the library documents counter overflow as
undefined behavior, so no wrap-around is modelled.
-/

namespace CrdtSpec

/-- Strict key order on entries of an association list. -/
def KeyLt {V : Type} (p q : Nat × V) : Prop := p.1 < q.1

/-- The entries of a canonical map: keys strictly increasing. -/
def SortedKeys {V : Type} (l : List (Nat × V)) : Prop := l.Pairwise KeyLt

/-- Key lookup in an association list (`get` on the Rust maps). -/
def lookupL {V : Type} : List (Nat × V) → Nat → Option V
  | [], _ => none
  | (k, v) :: rest, key => if key = k then some v else lookupL rest key

/-- Insertion in key order.  When the key is already bound to `v`, the new
binding is `c v val` (`c` is how the Rust code combines the existing entry with
the incoming one before `insert`); otherwise `val` is inserted. -/
def insertWithL {V : Type} (c : V → V → V) (key : Nat) (val : V) :
    List (Nat × V) → List (Nat × V)
  | [] => [(key, val)]
  | (k, v) :: rest =>
    if key < k then (key, val) :: (k, v) :: rest
    else if key = k then (k, c v val) :: rest
    else (k, v) :: insertWithL c key val rest

theorem lookupL_eq_none {V : Type} {l : List (Nat × V)} {key : Nat}
    (h : ∀ p ∈ l, key < p.1) : lookupL l key = none := by
  induction l with
  | nil => rfl
  | cons p rest ih =>
    obtain ⟨k, v⟩ := p
    have hk : key < k := h (k, v) (List.mem_cons_self _ _)
    simp only [lookupL, if_neg (Nat.ne_of_lt hk)]
    exact ih fun q hq => h q (List.mem_cons_of_mem _ hq)

theorem lookupL_mem {V : Type} {l : List (Nat × V)} {key : Nat} {v : V}
    (h : lookupL l key = some v) : (key, v) ∈ l := by
  induction l with
  | nil => simp [lookupL] at h
  | cons p rest ih =>
    obtain ⟨k, w⟩ := p
    by_cases hk : key = k
    · subst hk
      simp only [lookupL, if_pos rfl] at h
      cases h
      exact List.mem_cons_self _ _
    · simp only [lookupL, if_neg hk] at h
      exact List.mem_cons_of_mem _ (ih h)

theorem lookupL_of_mem {V : Type} {l : List (Nat × V)} {key : Nat} {v : V}
    (hs : SortedKeys l) (h : (key, v) ∈ l) : lookupL l key = some v := by
  induction l with
  | nil => simp at h
  | cons p rest ih =>
    obtain ⟨k, w⟩ := p
    rcases List.mem_cons.mp h with h1 | h1
    · injection h1 with hk hv
      subst hk; subst hv
      simp [lookupL]
    · have hlt : k < key := (List.pairwise_cons.mp hs).1 (key, v) h1
      simp only [lookupL, if_neg (Nat.ne_of_gt hlt)]
      exact ih (List.pairwise_cons.mp hs).2 h1

theorem keys_insertWithL {V : Type} (c : V → V → V) (key : Nat) (val : V)
    (l : List (Nat × V)) :
    ∀ p ∈ insertWithL c key val l, p.1 = key ∨ p.1 ∈ l.map Prod.fst := by
  induction l with
  | nil =>
    intro p hp
    simp only [insertWithL, List.mem_singleton] at hp
    subst hp; left; rfl
  | cons q rest ih =>
    obtain ⟨k, v⟩ := q
    intro p hp
    simp only [insertWithL] at hp
    by_cases h1 : key < k
    · rw [if_pos h1] at hp
      rcases List.mem_cons.mp hp with h | h
      · subst h; left; rfl
      · right
        exact List.mem_map_of_mem Prod.fst h
    · rw [if_neg h1] at hp
      by_cases h2 : key = k
      · rw [if_pos h2] at hp
        rcases List.mem_cons.mp hp with h | h
        · subst h; left; exact h2.symm
        · right
          exact List.mem_cons_of_mem _ (List.mem_map_of_mem Prod.fst h)
      · rw [if_neg h2] at hp
        rcases List.mem_cons.mp hp with h | h
        · subst h
          right
          exact List.mem_cons_self _ _
        · rcases ih p h with h3 | h3
          · left; exact h3
          · right; exact List.mem_cons_of_mem _ h3

theorem insertWithL_sorted {V : Type} {c : V → V → V} {key : Nat} {val : V}
    {l : List (Nat × V)} (hs : SortedKeys l) :
    SortedKeys (insertWithL c key val l) := by
  induction l with
  | nil => simp [insertWithL, SortedKeys]
  | cons q rest ih =>
    obtain ⟨k, v⟩ := q
    obtain ⟨hhead, htail⟩ := List.pairwise_cons.mp hs
    simp only [insertWithL]
    by_cases h1 : key < k
    · rw [if_pos h1]
      refine List.pairwise_cons.mpr ⟨?_, hs⟩
      intro q hq
      rcases List.mem_cons.mp hq with h | h
      · subst h; exact h1
      · exact Nat.lt_trans h1 (hhead q h)
    · rw [if_neg h1]
      by_cases h2 : key = k
      · rw [if_pos h2]
        exact List.pairwise_cons.mpr ⟨hhead, htail⟩
      · rw [if_neg h2]
        refine List.pairwise_cons.mpr ⟨?_, ih htail⟩
        intro q hq
        rcases keys_insertWithL c key val rest q hq with h | h
        · have : k < key := by omega
          show k < q.1
          omega
        · obtain ⟨r, hr, hr1⟩ := List.mem_map.mp h
          have : k < r.1 := hhead r hr
          show k < q.1
          omega

theorem lookupL_insertWithL {V : Type} (c : V → V → V) (key : Nat) (val : V)
    {l : List (Nat × V)} (hs : SortedKeys l) (qk : Nat) :
    lookupL (insertWithL c key val l) qk =
      if qk = key then
        match lookupL l key with
        | some old => some (c old val)
        | none => some val
      else lookupL l qk := by
  induction l with
  | nil =>
    by_cases h : qk = key <;> simp [insertWithL, lookupL, h]
  | cons q rest ih =>
    obtain ⟨k, v⟩ := q
    obtain ⟨hhead, htail⟩ := List.pairwise_cons.mp hs
    simp only [insertWithL]
    by_cases h1 : key < k
    · rw [if_pos h1]
      have hnone : lookupL ((k, v) :: rest) key = none := by
        refine lookupL_eq_none ?_
        intro p hp
        rcases List.mem_cons.mp hp with h | h
        · subst h; exact h1
        · exact Nat.lt_trans h1 (hhead p h)
      by_cases h : qk = key
      · subst h
        rw [if_pos rfl, hnone]
        simp [lookupL]
      · rw [if_neg h]
        simp [lookupL, h]
    · rw [if_neg h1]
      by_cases h2 : key = k
      · subst h2
        rw [if_pos rfl]
        by_cases h : qk = key
        · subst h
          rw [if_pos rfl]
          simp [lookupL]
        · rw [if_neg h]
          simp [lookupL, h]
      · rw [if_neg h2]
        have h3 : k < key := by omega
        by_cases h : qk = key
        · subst h
          rw [if_pos rfl]
          have hne : ¬ qk = k := h2
          simp only [lookupL, if_neg hne]
          rw [ih htail, if_pos rfl]
        · rw [if_neg h]
          by_cases h4 : qk = k
          · subst h4
            simp [lookupL]
          · simp only [lookupL, if_neg h4]
            rw [ih htail, if_neg h]

theorem insertWithL_eq_self {V : Type} {c : V → V → V} {key : Nat} {val : V}
    {l : List (Nat × V)} {w : V} (hs : SortedKeys l)
    (hw : lookupL l key = some w) (hc : c w val = w) :
    insertWithL c key val l = l := by
  induction l with
  | nil => simp [lookupL] at hw
  | cons q rest ih =>
    obtain ⟨k, v⟩ := q
    obtain ⟨hhead, htail⟩ := List.pairwise_cons.mp hs
    simp only [insertWithL]
    by_cases h1 : key < k
    · exfalso
      have : lookupL ((k, v) :: rest) key = none := by
        refine lookupL_eq_none ?_
        intro p hp
        rcases List.mem_cons.mp hp with h | h
        · subst h; exact h1
        · exact Nat.lt_trans h1 (hhead p h)
      rw [this] at hw
      exact Option.noConfusion hw
    · rw [if_neg h1]
      by_cases h2 : key = k
      · subst h2
        rw [if_pos rfl]
        simp only [lookupL, if_pos rfl] at hw
        cases hw
        rw [hc]
      · rw [if_neg h2]
        simp only [lookupL, if_neg h2] at hw
        rw [ih htail hw]

theorem sorted_lookupL_ext {V : Type} :
    ∀ {a b : List (Nat × V)}, SortedKeys a → SortedKeys b →
      (∀ k, lookupL a k = lookupL b k) → a = b := by
  intro a
  induction a with
  | nil =>
    intro b _ _ h
    cases b with
    | nil => rfl
    | cons q rest =>
      exfalso
      obtain ⟨k, v⟩ := q
      have := h k
      simp [lookupL] at this
  | cons p as ih =>
    intro b hsa hsb h
    obtain ⟨k, v⟩ := p
    obtain ⟨hheada, htaila⟩ := List.pairwise_cons.mp hsa
    cases b with
    | nil =>
      exfalso
      have := h k
      simp [lookupL] at this
    | cons q bs =>
      obtain ⟨k2, v2⟩ := q
      obtain ⟨hheadb, htailb⟩ := List.pairwise_cons.mp hsb
      have hkk : k = k2 := by
        rcases Nat.lt_trichotomy k k2 with hlt | heq | hgt
        · exfalso
          have hb : lookupL ((k2, v2) :: bs) k = none := by
            refine lookupL_eq_none ?_
            intro p hp
            rcases List.mem_cons.mp hp with hh | hh
            · subst hh; exact hlt
            · exact Nat.lt_trans hlt (hheadb p hh)
          have ha : lookupL ((k, v) :: as) k = some v := by simp [lookupL]
          rw [h k, hb] at ha
          exact Option.noConfusion ha
        · exact heq
        · exfalso
          have ha : lookupL ((k, v) :: as) k2 = none := by
            refine lookupL_eq_none ?_
            intro p hp
            rcases List.mem_cons.mp hp with hh | hh
            · subst hh; exact hgt
            · exact Nat.lt_trans hgt (hheada p hh)
          have hb : lookupL ((k2, v2) :: bs) k2 = some v2 := by simp [lookupL]
          rw [← h k2, ha] at hb
          exact Option.noConfusion hb
      subst hkk
      have hv : v = v2 := by
        have := h k
        simpa [lookupL] using this
      subst hv
      have : as = bs := by
        refine ih htaila htailb ?_
        intro key
        by_cases hk : key = k
        · subst hk
          rw [lookupL_eq_none fun p hp => hheada p hp,
            lookupL_eq_none fun p hp => hheadb p hp]
        · have := h key
          simpa [lookupL, hk] using this
      rw [this]

/-- Merging a map `other` into `self`: the Rust code iterates the entries of
`other` and re-inserts each key into `self`, combining values with `c` when the
key is already bound. -/
def mergeL {V : Type} (c : V → V → V) (self other : List (Nat × V)) :
    List (Nat × V) :=
  other.foldl (fun acc p => insertWithL c p.1 p.2 acc) self

/-- Pointwise combination of two optional values, the per-key effect of
`mergeL`. -/
def combineOpt {V : Type} (c : V → V → V) : Option V → Option V → Option V
  | some a, some b => some (c a b)
  | some a, none => some a
  | none, ob => ob

theorem mergeL_sorted {V : Type} {c : V → V → V} {self other : List (Nat × V)}
    (hs : SortedKeys self) : SortedKeys (mergeL c self other) := by
  induction other generalizing self with
  | nil => exact hs
  | cons p rest ih => exact ih (insertWithL_sorted hs)

theorem lookupL_mergeL {V : Type} (c : V → V → V)
    {self other : List (Nat × V)} (hs : SortedKeys self)
    (ho : SortedKeys other) (key : Nat) :
    lookupL (mergeL c self other) key =
      combineOpt c (lookupL self key) (lookupL other key) := by
  induction other generalizing self with
  | nil =>
    show lookupL self key = combineOpt c (lookupL self key) none
    cases lookupL self key <;> rfl
  | cons p rest ih =>
    obtain ⟨k, v⟩ := p
    obtain ⟨hhead, htail⟩ := List.pairwise_cons.mp ho
    have hstep : mergeL c self ((k, v) :: rest) =
        mergeL c (insertWithL c k v self) rest := rfl
    rw [hstep, ih (insertWithL_sorted hs) htail]
    by_cases h : key = k
    · subst h
      have hrest : lookupL rest key = none :=
        lookupL_eq_none fun p hp => hhead p hp
      rw [hrest, lookupL_insertWithL c key v hs key, if_pos rfl]
      simp only [lookupL, if_pos rfl]
      cases lookupL self key <;> rfl
    · rw [lookupL_insertWithL c k v hs key, if_neg h]
      simp only [lookupL, if_neg h]

/-- A canonical finite map: an association list with strictly increasing keys.
This is the model of the `TrieMap` / `HashMap` fields of the Rust CRDTs. -/
structure SMap (V : Type) where
  entries : List (Nat × V)
  sorted : SortedKeys entries

theorem SMap.eq_of_entries {V : Type} {a b : SMap V}
    (h : a.entries = b.entries) : a = b := by
  cases a; cases b; cases h; rfl

/-- The empty map (`new()`). -/
def SMap.empty {V : Type} : SMap V := ⟨[], List.Pairwise.nil⟩

/-- Key lookup (`get` on the Rust maps). -/
def SMap.lookup {V : Type} (m : SMap V) (key : Nat) : Option V :=
  lookupL m.entries key

/-- Number of entries (`len()` on the Rust maps). -/
def SMap.len {V : Type} (m : SMap V) : Nat := m.entries.length

/-- Insert, combining with `c` when the key is present. -/
def SMap.insertWith {V : Type} (m : SMap V) (c : V → V → V) (key : Nat)
    (val : V) : SMap V :=
  ⟨insertWithL c key val m.entries, insertWithL_sorted m.sorted⟩

/-- Merge `other` into `m`, combining values of shared keys with `c`. -/
def SMap.mergeWith {V : Type} (m : SMap V) (c : V → V → V) (other : SMap V) :
    SMap V :=
  ⟨mergeL c m.entries other.entries, mergeL_sorted m.sorted⟩

theorem SMap.lookup_ext {V : Type} {a b : SMap V}
    (h : ∀ k, a.lookup k = b.lookup k) : a = b :=
  SMap.eq_of_entries (sorted_lookupL_ext a.sorted b.sorted h)

instance {V : Type} [DecidableEq V] : DecidableEq (SMap V) := fun a b =>
  decidable_of_iff (a.entries = b.entries)
    ⟨SMap.eq_of_entries, fun h => h ▸ rfl⟩

theorem SMap.lookup_insertWith {V : Type} (m : SMap V) (c : V → V → V)
    (key : Nat) (val : V) (qk : Nat) :
    (m.insertWith c key val).lookup qk =
      if qk = key then
        match m.lookup key with
        | some old => some (c old val)
        | none => some val
      else m.lookup qk :=
  lookupL_insertWithL c key val m.sorted qk

theorem SMap.insertWith_eq_self {V : Type} {m : SMap V} {c : V → V → V}
    {key : Nat} {val : V} {w : V} (hw : m.lookup key = some w)
    (hc : c w val = w) : m.insertWith c key val = m :=
  SMap.eq_of_entries (insertWithL_eq_self m.sorted hw hc)

theorem SMap.lookup_mergeWith {V : Type} (m : SMap V) (c : V → V → V)
    (other : SMap V) (key : Nat) :
    (m.mergeWith c other).lookup key =
      combineOpt c (m.lookup key) (other.lookup key) :=
  lookupL_mergeL c m.sorted other.sorted key

theorem SMap.lookup_empty {V : Type} (key : Nat) :
    (SMap.empty (V := V)).lookup key = none := rfl

theorem SMap.mergeWith_idem {V : Type} {c : V → V → V}
    (hc : ∀ x, c x x = x) (a : SMap V) : a.mergeWith c a = a := by
  refine SMap.lookup_ext fun k => ?_
  rw [SMap.lookup_mergeWith]
  cases a.lookup k with
  | none => rfl
  | some x => simp [combineOpt, hc]

theorem SMap.mergeWith_comm {V : Type} {c : V → V → V}
    (hc : ∀ x y, c x y = c y x) (a b : SMap V) :
    a.mergeWith c b = b.mergeWith c a := by
  refine SMap.lookup_ext fun k => ?_
  rw [SMap.lookup_mergeWith, SMap.lookup_mergeWith]
  cases a.lookup k <;> cases b.lookup k <;> simp [combineOpt, hc]

theorem SMap.mergeWith_assoc {V : Type} {c : V → V → V}
    (hc : ∀ x y z, c (c x y) z = c x (c y z)) (a b d : SMap V) :
    (a.mergeWith c b).mergeWith c d = a.mergeWith c (b.mergeWith c d) := by
  refine SMap.lookup_ext fun k => ?_
  rw [SMap.lookup_mergeWith, SMap.lookup_mergeWith, SMap.lookup_mergeWith,
    SMap.lookup_mergeWith]
  cases a.lookup k <;> cases b.lookup k <;> cases d.lookup k <;>
    simp [combineOpt, hc]

theorem SMap.mergeWith_empty_left {V : Type} (c : V → V → V) (b : SMap V) :
    SMap.empty.mergeWith c b = b := by
  refine SMap.lookup_ext fun k => ?_
  rw [SMap.lookup_mergeWith, SMap.lookup_empty]
  rfl

theorem SMap.lookup_mem {V : Type} {m : SMap V} {key : Nat} {v : V}
    (h : m.lookup key = some v) : (key, v) ∈ m.entries :=
  lookupL_mem h

theorem SMap.lookup_of_mem {V : Type} {m : SMap V} {key : Nat} {v : V}
    (h : (key, v) ∈ m.entries) : m.lookup key = some v :=
  lookupL_of_mem m.sorted h

/-- Pigeonhole for the `len()` shortcut in the counters' `partial_cmp`: a map
whose every key is bound in `b` has at most as many entries as `b`. -/
theorem SMap.len_le_of_lookup_isSome {V W : Type} (a : SMap V) (b : SMap W)
    (h : ∀ p ∈ a.entries, (b.lookup p.1).isSome) : a.len ≤ b.len := by
  have hkeysub : a.entries.map Prod.fst ⊆ b.entries.map Prod.fst := by
    intro k hk
    obtain ⟨p, hp, hpk⟩ := List.mem_map.mp hk
    have := h p hp
    obtain ⟨v, hv⟩ := Option.isSome_iff_exists.mp this
    have : (p.1, v) ∈ b.entries := lookupL_mem hv
    exact hpk ▸ List.mem_map_of_mem Prod.fst this
  have hnodup : (a.entries.map Prod.fst).Nodup := by
    have : (a.entries.map Prod.fst).Pairwise (· < ·) :=
      List.pairwise_map.mpr a.sorted
    exact this.imp Nat.ne_of_lt
  have := (List.subperm_of_subset hnodup hkeysub).length_le
  simpa [SMap.len] using this

/-- Rust's `PartialOrd::le`: `partial_cmp` returned `Less` or `Equal`. -/
def leOfCmp (o : Option Ordering) : Bool :=
  match o with
  | some .lt => true
  | some .eq => true
  | _ => false

/-- Rust's `PartialOrd::ge`: `partial_cmp` returned `Greater` or `Equal`. -/
def geOfCmp (o : Option Ordering) : Bool :=
  match o with
  | some .gt => true
  | some .eq => true
  | _ => false

/-! `Pn`, from `src/pn.rs`: the signed accumulator used by `PnSet`. -/

structure Pn where
  p : Nat
  n : Nat
deriving DecidableEq

/-- `Pn::new`. -/
def Pn.new : Pn := ⟨0, 0⟩

/-- `Pn::count`: `p as i64 - n as i64`. -/
def Pn.count (x : Pn) : Int := (x.p : Int) - (x.n : Int)

/-- `Pn::increment`: a non-negative amount raises `p`, a negative amount raises
`n` by its absolute value. -/
def Pn.increment (x : Pn) (amount : Int) : Pn :=
  if 0 ≤ amount then { x with p := x.p + amount.toNat }
  else { x with n := x.n + amount.natAbs }

/-- `Pn::merge`: pointwise maximum. -/
def Pn.merge (x other : Pn) : Pn := ⟨max x.p other.p, max x.n other.n⟩

theorem Pn.merge_idem (x : Pn) : x.merge x = x := by
  simp [Pn.merge]

theorem Pn.merge_comm (x y : Pn) : x.merge y = y.merge x := by
  simp [Pn.merge, Nat.max_comm]

theorem Pn.merge_assoc (x y z : Pn) :
    (x.merge y).merge z = x.merge (y.merge z) := by
  simp [Pn.merge, Nat.max_assoc]

/-! `GCounter`, from `src/counter/gcounter.rs`.  The `u64` per-replica counts
live in a `TrieMap<u64>` keyed by replica id. -/

structure GCounter where
  replicaId : Nat
  counts : SMap Nat

/-- `GCounterIncrement`: the operation returned by `increment` carries the
local replica id and the increment amount. -/
structure GCounterIncrement where
  replicaId : Nat
  amount : Nat
deriving DecidableEq

/-- `GCounter::new`. -/
def GCounter.new (replicaId : Nat) : GCounter := ⟨replicaId, SMap.empty⟩

/-- `GCounter::count`: the sum of all per-replica entries. -/
def GCounter.count (c : GCounter) : Nat :=
  (c.counts.entries.map Prod.snd).sum

/-- `GCounter::apply` (gcounter.rs:149-155): the entry for `op.replica_id`
becomes the existing count plus `op.amount` (just `op.amount` when absent). -/
def GCounter.apply (c : GCounter) (op : GCounterIncrement) : GCounter :=
  { c with
    counts :=
      c.counts.insertWith (fun selfCount amount => selfCount + amount)
        op.replicaId op.amount }

/-- `GCounter::increment` (gcounter.rs:89-93): build the operation from the
local replica id and the amount, apply it locally, and return it. -/
def GCounter.increment (c : GCounter) (amount : Nat) :
    GCounter × GCounterIncrement :=
  let operation : GCounterIncrement := ⟨c.replicaId, amount⟩
  (c.apply operation, operation)

/-- `GCounter::merge`: per replica, keep the larger count. -/
def GCounter.merge (c other : GCounter) : GCounter :=
  { c with
    counts :=
      c.counts.mergeWith (fun selfCount otherCount => max selfCount otherCount)
        other.counts }

/-- `PartialEq for GCounter` compares only `counts`, never the replica id. -/
def GCounter.eqv (a b : GCounter) : Prop := a.counts = b.counts

instance (a b : GCounter) : Decidable (GCounter.eqv a b) := by
  unfold GCounter.eqv; infer_instance

/-- The inner `a_gt_b` of `GCounter::partial_cmp` (gcounter.rs:172-181): some
entry of `a` is absent from `b` or strictly exceeds the entry of `b`. -/
def GCounter.aGtB (a b : GCounter) : Bool :=
  a.counts.entries.any fun p =>
    match b.counts.lookup p.1 with
    | some bCount => decide (bCount < p.2)
    | none => true

/-- `GCounter::partial_cmp` (gcounter.rs:166-197), including the
entry-count comparison used to short-circuit one of the `a_gt_b` calls. -/
def GCounter.partCmp (a b : GCounter) : Option Ordering :=
  let flags : Bool × Bool :=
    match compare a.counts.len b.counts.len with
    | .lt => (GCounter.aGtB a b, true)
    | .gt => (true, GCounter.aGtB b a)
    | .eq => (GCounter.aGtB a b, GCounter.aGtB b a)
  match flags with
  | (true, true) => none
  | (true, false) => some .gt
  | (false, true) => some .lt
  | (false, false) => some .eq

/-- `a <= b` for `GCounter`. -/
def GCounter.le (a b : GCounter) : Bool := leOfCmp (GCounter.partCmp a b)

/-- `a >= b` for `GCounter`. -/
def GCounter.ge (a b : GCounter) : Bool := geOfCmp (GCounter.partCmp a b)

/-! `PnCounter`, from `src/counter/pncounter.rs`.  Each replica slot holds a
`(u64, u64)` pair of positive and negative accumulations. -/

structure PnCounter where
  replicaId : Nat
  counts : SMap (Nat × Nat)

/-- `PnCounterIncrement`: replica id and signed amount. -/
structure PnCounterIncrement where
  replicaId : Nat
  amount : Int
deriving DecidableEq

/-- `PnCounter::new`. -/
def PnCounter.new (replicaId : Nat) : PnCounter := ⟨replicaId, SMap.empty⟩

/-- `PnCounter::count`: the sum over replicas of `p as i64 - n as i64`. -/
def PnCounter.count (c : PnCounter) : Int :=
  (c.counts.entries.map fun q => (q.2.1 : Int) - (q.2.2 : Int)).sum

/-- `PnCounter::apply` (pncounter.rs:156-170): split the signed amount into a
`(p, n)` delta and add it to the replica's entry. -/
def PnCounter.apply (c : PnCounter) (op : PnCounterIncrement) : PnCounter :=
  let amounts : Nat × Nat :=
    if 0 < op.amount then (op.amount.toNat, 0) else (0, op.amount.natAbs)
  { c with
    counts :=
      c.counts.insertWith
        (fun selfCounts a => (selfCounts.1 + a.1, selfCounts.2 + a.2))
        op.replicaId amounts }

/-- `PnCounter::increment` (pncounter.rs:96-100). -/
def PnCounter.increment (c : PnCounter) (amount : Int) :
    PnCounter × PnCounterIncrement :=
  let operation : PnCounterIncrement := ⟨c.replicaId, amount⟩
  (c.apply operation, operation)

/-- `PnCounter::merge`: per replica, pointwise maximum of the `(p, n)` pair. -/
def PnCounter.merge (c other : PnCounter) : PnCounter :=
  { c with
    counts :=
      c.counts.mergeWith
        (fun selfCounts otherCounts =>
          (max selfCounts.1 otherCounts.1, max selfCounts.2 otherCounts.2))
        other.counts }

/-- `PartialEq for PnCounter` compares only `counts`. -/
def PnCounter.eqv (a b : PnCounter) : Prop := a.counts = b.counts

instance (a b : PnCounter) : Decidable (PnCounter.eqv a b) := by
  unfold PnCounter.eqv; infer_instance

/-- The inner `a_gt_b` of `PnCounter::partial_cmp` (pncounter.rs:187-197). -/
def PnCounter.aGtB (a b : PnCounter) : Bool :=
  a.counts.entries.any fun q =>
    match b.counts.lookup q.1 with
    | some bCounts => decide (bCounts.1 < q.2.1) || decide (bCounts.2 < q.2.2)
    | none => true

/-- `PnCounter::partial_cmp` (pncounter.rs:181-213). -/
def PnCounter.partCmp (a b : PnCounter) : Option Ordering :=
  let flags : Bool × Bool :=
    match compare a.counts.len b.counts.len with
    | .lt => (PnCounter.aGtB a b, true)
    | .gt => (true, PnCounter.aGtB b a)
    | .eq => (PnCounter.aGtB a b, PnCounter.aGtB b a)
  match flags with
  | (true, true) => none
  | (true, false) => some .gt
  | (false, true) => some .lt
  | (false, false) => some .eq

/-- `a <= b` for `PnCounter`. -/
def PnCounter.le (a b : PnCounter) : Bool := leOfCmp (PnCounter.partCmp a b)

/-- `a >= b` for `PnCounter`. -/
def PnCounter.ge (a b : PnCounter) : Bool := geOfCmp (PnCounter.partCmp a b)

/-! `LwwRegister<T>`, from `src/register/lwwregister.rs`: a value together
with the transaction id of the write that produced it. -/

structure LwwRegister (T : Type) where
  value : T
  transactionId : Nat

/-- `LwwRegister::new`. -/
def LwwRegister.new {T : Type} (value : T) (transactionId : Nat) :
    LwwRegister T := ⟨value, transactionId⟩

/-- `LwwRegister::set` (lwwregister.rs:60-68): succeeds, returning a snapshot
of the register, exactly when the new transaction id is not below the stored
one. -/
def LwwRegister.set {T : Type} (r : LwwRegister T) (value : T)
    (transactionId : Nat) : LwwRegister T × Option (LwwRegister T) :=
  if r.transactionId ≤ transactionId then
    let updated : LwwRegister T := ⟨value, transactionId⟩
    (updated, some updated)
  else (r, none)

/-- `LwwRegister::merge`: take the incoming pair whenever its transaction id
is at least the local one. -/
def LwwRegister.merge {T : Type} (r other : LwwRegister T) : LwwRegister T :=
  if r.transactionId ≤ other.transactionId then
    ⟨other.value, other.transactionId⟩
  else r

/-- `LwwRegister::apply` simply merges the operation (a full register). -/
def LwwRegister.apply {T : Type} (r op : LwwRegister T) : LwwRegister T :=
  r.merge op

/-- `PartialEq for LwwRegister` compares only the transaction id. -/
def LwwRegister.eqv {T : Type} (a b : LwwRegister T) : Prop :=
  a.transactionId = b.transactionId

instance {T : Type} (a b : LwwRegister T) : Decidable (LwwRegister.eqv a b) :=
  by unfold LwwRegister.eqv; infer_instance

/-- `LwwRegister::partial_cmp`: the total order on transaction ids. -/
def LwwRegister.partCmp {T : Type} (a b : LwwRegister T) : Option Ordering :=
  some (compare a.transactionId b.transactionId)

/-- `a <= b` for `LwwRegister`. -/
def LwwRegister.le {T : Type} (a b : LwwRegister T) : Bool :=
  leOfCmp (LwwRegister.partCmp a b)

/-- `a >= b` for `LwwRegister`. -/
def LwwRegister.ge {T : Type} (a b : LwwRegister T) : Bool :=
  geOfCmp (LwwRegister.partCmp a b)

/-! `GSet<T>`, from `src/set/gset.rs`: a grow-only set, modelled as a
canonical map from elements to `Unit`. -/

structure GSet where
  elements : SMap Unit

/-- `GSetInsert`: the single operation of a grow-only set. -/
structure GSetInsert where
  element : Nat
deriving DecidableEq

theorem GSet.gset_eq_of_elements {a b : GSet} (h : a.elements = b.elements) :
    a = b := by cases a; cases b; cases h; rfl

instance : DecidableEq GSet := fun a b =>
  decidable_of_iff (a.elements = b.elements)
    ⟨GSet.gset_eq_of_elements, fun h => h ▸ rfl⟩

/-- `GSet::new`. -/
def GSet.new : GSet := ⟨SMap.empty⟩

/-- `GSet::insert` (gset.rs:47-53): returns an operation exactly when the
element was not already present. -/
def GSet.insert (s : GSet) (element : Nat) : GSet × Option GSetInsert :=
  match s.elements.lookup element with
  | some _ => (s, none)
  | none =>
    (⟨s.elements.insertWith (fun old _ => old) element ()⟩,
      some ⟨element⟩)

/-- `GSet::contains`. -/
def GSet.contains (s : GSet) (element : Nat) : Bool :=
  (s.elements.lookup element).isSome

/-- `GSet::len`. -/
def GSet.len (s : GSet) : Nat := s.elements.len

/-- `GSet::is_subset`. -/
def GSet.isSubset (s other : GSet) : Bool :=
  s.elements.entries.all fun p => (other.elements.lookup p.1).isSome

/-- `GSet::merge`: insert every element of `other` (set union). -/
def GSet.merge (s other : GSet) : GSet :=
  ⟨s.elements.mergeWith (fun old _ => old) other.elements⟩

/-- `GSet::apply`: insert the element of the operation. -/
def GSet.apply (s : GSet) (op : GSetInsert) : GSet :=
  (s.insert op.element).1

/-- `GSet::partial_cmp` (gset.rs:134-146): equality, then proper
subset/superset, otherwise incomparable. -/
def GSet.partCmp (a b : GSet) : Option Ordering :=
  if a.elements = b.elements then some .eq
  else if GSet.isSubset a b then some .lt
  else if GSet.isSubset b a then some .gt
  else none

/-- `a <= b` for `GSet`. -/
def GSet.le (a b : GSet) : Bool := leOfCmp (GSet.partCmp a b)

/-- `a >= b` for `GSet`. -/
def GSet.ge (a b : GSet) : Bool := geOfCmp (GSet.partCmp a b)

/-! `TpSet<T>`, from `src/set/tpset.rs`: each element maps to a flag that is
`true` while the element is present and `false` once removed. -/

structure TpSet where
  elements : SMap Bool

/-- `TpSetOp`: insert or remove an element. -/
inductive TpSetOp where
  | Insert (element : Nat)
  | Remove (element : Nat)
deriving DecidableEq

theorem TpSet.tp_eq_of_elements {a b : TpSet} (h : a.elements = b.elements) :
    a = b := by cases a; cases b; cases h; rfl

instance : DecidableEq TpSet := fun a b =>
  decidable_of_iff (a.elements = b.elements)
    ⟨TpSet.tp_eq_of_elements, fun h => h ▸ rfl⟩

/-- `TpSet::new`. -/
def TpSet.new : TpSet := ⟨SMap.empty⟩

/-- `TpSet::insert` (tpset.rs:51-58): succeeds only when the element has never
been seen (no entry at all, present or removed). -/
def TpSet.insert (s : TpSet) (element : Nat) : TpSet × Option TpSetOp :=
  match s.elements.lookup element with
  | some _ => (s, none)
  | none =>
    (⟨s.elements.insertWith (fun _ incoming => incoming) element true⟩,
      some (.Insert element))

/-- `TpSet::remove` (tpset.rs:73-85): succeeds when the element is absent
(recording an immediate removal) or currently present; removing an
already-removed element is a no-op. -/
def TpSet.remove (s : TpSet) (element : Nat) : TpSet × Option TpSetOp :=
  match s.elements.lookup element with
  | none =>
    (⟨s.elements.insertWith (fun _ incoming => incoming) element false⟩,
      some (.Remove element))
  | some true =>
    (⟨s.elements.insertWith (fun _ incoming => incoming) element false⟩,
      some (.Remove element))
  | some false => (s, none)

/-- `TpSet::contains`: the entry flag, defaulting to `false`. -/
def TpSet.contains (s : TpSet) (element : Nat) : Bool :=
  (s.elements.lookup element).getD false

/-- `TpSet::len`: the number of present entries. -/
def TpSet.len (s : TpSet) : Nat :=
  (s.elements.entries.filter fun p => p.2).length

/-- `TpSet::merge` (tpset.rs:139-150): an incoming present marker is applied
only to a vacant entry, while an incoming removal always overwrites. -/
def TpSet.merge (s other : TpSet) : TpSet :=
  ⟨s.elements.mergeWith
    (fun selfPresent incoming => if incoming then selfPresent else false)
    other.elements⟩

/-- `TpSet::apply` (tpset.rs:169-174): delegate to `insert` / `remove`. -/
def TpSet.apply (s : TpSet) (op : TpSetOp) : TpSet :=
  match op with
  | .Insert element => (s.insert element).1
  | .Remove element => (s.remove element).1

/-- `TpSet::partial_cmp` (tpset.rs:185-232): flags recording whether each side
has observed every event of the other, combined exactly as in the source. -/
def TpSet.partCmp (a b : TpSet) : Option Ordering :=
  if a.elements = b.elements then some .eq
  else
    let selfIsGreater := b.elements.entries.all fun q =>
      if q.2 then (a.elements.lookup q.1).isSome
      else a.elements.lookup q.1 = some false
    let otherIsGreater := a.elements.entries.all fun q =>
      if q.2 then (b.elements.lookup q.1).isSome
      else b.elements.lookup q.1 = some false
    if selfIsGreater && otherIsGreater then none
    else if selfIsGreater then some .gt
    else some .lt

/-- `a <= b` for `TpSet`. -/
def TpSet.le (a b : TpSet) : Bool := leOfCmp (TpSet.partCmp a b)

/-- `a >= b` for `TpSet`. -/
def TpSet.ge (a b : TpSet) : Bool := geOfCmp (TpSet.partCmp a b)

/-! `LwwSet<T>`, from `src/set/lwwset.rs`: each element maps to a
`(present, transaction id)` pair. -/

structure LwwSet where
  elements : SMap (Bool × Nat)

/-- `LwwSetOp`: insert or remove an element at a transaction id. -/
inductive LwwSetOp where
  | Insert (element : Nat) (transactionId : Nat)
  | Remove (element : Nat) (transactionId : Nat)
deriving DecidableEq

theorem LwwSet.lww_eq_of_elements {a b : LwwSet} (h : a.elements = b.elements) :
    a = b := by cases a; cases b; cases h; rfl

instance : DecidableEq LwwSet := fun a b =>
  decidable_of_iff (a.elements = b.elements)
    ⟨LwwSet.lww_eq_of_elements, fun h => h ▸ rfl⟩

/-- `LwwSet::new`. -/
def LwwSet.new : LwwSet := ⟨SMap.empty⟩

/-- `LwwSet::insert` (lwwset.rs:49-67): overwrite to `(true, tid)` when the
element is unseen or the stored transaction id is not above `tid`. -/
def LwwSet.insert (s : LwwSet) (element transactionId : Nat) :
    LwwSet × Option LwwSetOp :=
  match s.elements.lookup element with
  | some entry =>
    if entry.2 ≤ transactionId then
      (⟨s.elements.insertWith (fun _ incoming => incoming) element
          (true, transactionId)⟩,
        some (.Insert element transactionId))
    else (s, none)
  | none =>
    (⟨s.elements.insertWith (fun _ incoming => incoming) element
        (true, transactionId)⟩,
      some (.Insert element transactionId))

/-- `LwwSet::remove` (lwwset.rs:82-101): overwrite to `(false, tid)` when the
element is unseen or the stored transaction id is strictly below `tid`. -/
def LwwSet.remove (s : LwwSet) (element transactionId : Nat) :
    LwwSet × Option LwwSetOp :=
  match s.elements.lookup element with
  | some entry =>
    if entry.2 < transactionId then
      (⟨s.elements.insertWith (fun _ incoming => incoming) element
          (false, transactionId)⟩,
        some (.Remove element transactionId))
    else (s, none)
  | none =>
    (⟨s.elements.insertWith (fun _ incoming => incoming) element
        (false, transactionId)⟩,
      some (.Remove element transactionId))

/-- `LwwSet::contains`. -/
def LwwSet.contains (s : LwwSet) (element : Nat) : Bool :=
  match s.elements.lookup element with
  | some entry => entry.1
  | none => false

/-- `LwwSet::len`: the number of present entries. -/
def LwwSet.len (s : LwwSet) : Nat :=
  (s.elements.entries.filter fun p => p.2.1).length

/-- `LwwSet::merge` (lwwset.rs:154-162): replay each incoming entry through
`insert` or `remove` according to its presence flag. -/
def LwwSet.merge (s other : LwwSet) : LwwSet :=
  other.elements.entries.foldl
    (fun acc p =>
      if p.2.1 then (acc.insert p.1 p.2.2).1 else (acc.remove p.1 p.2.2).1)
    s

/-- `LwwSet::apply` (lwwset.rs:181-186): delegate to `insert` / `remove`. -/
def LwwSet.apply (s : LwwSet) (op : LwwSetOp) : LwwSet :=
  match op with
  | .Insert element transactionId => (s.insert element transactionId).1
  | .Remove element transactionId => (s.remove element transactionId).1

/-- `LwwSet::partial_cmp` (lwwset.rs:197-228): a side is "greater" when some
of its elements is missing from the other side or carries a strictly larger
transaction id; presence flags are not consulted. -/
def LwwSet.partCmp (a b : LwwSet) : Option Ordering :=
  if a.elements = b.elements then some .eq
  else
    let selfIsGreater := a.elements.entries.any fun p =>
      match b.elements.lookup p.1 with
      | some q => decide (q.2 < p.2.2)
      | none => true
    let otherIsGreater := b.elements.entries.any fun p =>
      match a.elements.lookup p.1 with
      | some q => decide (q.2 < p.2.2)
      | none => true
    if selfIsGreater && otherIsGreater then none
    else if selfIsGreater then some .gt
    else some .lt

/-- `a <= b` for `LwwSet`. -/
def LwwSet.le (a b : LwwSet) : Bool := leOfCmp (LwwSet.partCmp a b)

/-- `a >= b` for `LwwSet`. -/
def LwwSet.ge (a b : LwwSet) : Bool := geOfCmp (LwwSet.partCmp a b)

/-! `PnSet<T>`, from `src/set/pnset.rs`: each element maps to a nested map
from replica id to `Pn`, preserving per-replica provenance. -/

/-- The free `count` function of pnset.rs:26-28: the sum of `Pn::count` over
one element's per-replica entries. -/
def innerCount (replicaCounts : SMap Pn) : Int :=
  replicaCounts.entries.foldl (fun sum q => sum + q.2.count) 0

structure PnSet where
  replicaId : Nat
  elements : SMap (SMap Pn)

/-- `PnSetOp`: element, issuing replica, and a snapshot of that replica's
`Pn` for the element after the mutation. -/
structure PnSetOp where
  element : Nat
  replicaId : Nat
  pn : Pn
deriving DecidableEq

/-- `PnSet::new`. -/
def PnSet.new (replicaId : Nat) : PnSet := ⟨replicaId, SMap.empty⟩

/-- `PnSet::increment_element` (pnset.rs:80-88): bump the local replica's `Pn`
for the element (creating empty nested entries as needed) and return an
operation carrying the resulting `Pn` snapshot. -/
def PnSet.incrementElement (s : PnSet) (element : Nat) (amount : Int) :
    PnSet × PnSetOp :=
  let oldPn : Pn :=
    (((s.elements.lookup element).getD SMap.empty).lookup s.replicaId).getD
      Pn.new
  let newPn : Pn := oldPn.increment amount
  let updInner : SMap Pn → SMap Pn := fun inner =>
    inner.insertWith (fun old _ => old.increment amount) s.replicaId newPn
  (⟨s.replicaId,
      s.elements.insertWith (fun oldInner _ => updInner oldInner) element
        (updInner SMap.empty)⟩,
    ⟨element, s.replicaId, newPn⟩)

/-- `PnSet::insert`: increment the element's local count by `1`. -/
def PnSet.insert (s : PnSet) (element : Nat) : PnSet × PnSetOp :=
  s.incrementElement element 1

/-- `PnSet::remove`: increment the element's local count by `-1`. -/
def PnSet.remove (s : PnSet) (element : Nat) : PnSet × PnSetOp :=
  s.incrementElement element (-1)

/-- `PnSet::contains`: the element's summed count is positive. -/
def PnSet.contains (s : PnSet) (element : Nat) : Bool :=
  match s.elements.lookup element with
  | some replicaCounts => decide (0 < innerCount replicaCounts)
  | none => false

/-- `PnSet::len`: the number of elements whose summed count is positive. -/
def PnSet.len (s : PnSet) : Nat :=
  (s.elements.entries.filter fun p => decide (0 < innerCount p.2)).length

/-- `PnSet::merge` (pnset.rs:145-154): per element and per replica, merge the
`Pn` pairs.  The source first inserts an empty nested map for a locally vacant
element and then merges every incoming replica entry into it, which produces
exactly the incoming nested map (`SMap.mergeWith_empty_left`). -/
def PnSet.merge (s other : PnSet) : PnSet :=
  ⟨s.replicaId,
    s.elements.mergeWith
      (fun selfCounts otherCounts => selfCounts.mergeWith Pn.merge otherCounts)
      other.elements⟩

/-- `PnSet::apply` (pnset.rs:175-183): merge the operation's single
`(replica, pn)` pair into the element's nested map.  A vacant replica slot is
first filled with `Pn::new()` and then merged with the incoming `pn`. -/
def PnSet.apply (s : PnSet) (op : PnSetOp) : PnSet :=
  let updInner : SMap Pn → SMap Pn := fun inner =>
    inner.insertWith (fun old _ => old.merge op.pn) op.replicaId
      (Pn.new.merge op.pn)
  ⟨s.replicaId,
    s.elements.insertWith (fun oldInner _ => updInner oldInner) op.element
      (updInner SMap.empty)⟩

/-- `PartialEq for PnSet` compares only `elements`. -/
def PnSet.eqv (a b : PnSet) : Prop := a.elements = b.elements

instance (a b : PnSet) : Decidable (PnSet.eqv a b) := by
  unfold PnSet.eqv; infer_instance

/-- The nested `a_gt_b` of `PnSet::partial_cmp` (pnset.rs:197-203), including
its length shortcut. -/
def PnSet.innerGt (a b : SMap Pn) : Bool :=
  decide (b.len < a.len) ||
    a.entries.any fun q =>
      match b.lookup q.1 with
      | some bPn => decide (bPn.p < q.2.p) || decide (bPn.n < q.2.n)
      | none => true

/-- `PnSet::partial_cmp` (pnset.rs:194-232). -/
def PnSet.partCmp (a b : PnSet) : Option Ordering :=
  let selfIsGreater := a.elements.entries.any fun p =>
    match b.elements.lookup p.1 with
    | some otherCounts => PnSet.innerGt p.2 otherCounts
    | none => true
  let otherIsGreater := b.elements.entries.any fun p =>
    match a.elements.lookup p.1 with
    | some selfCounts => PnSet.innerGt p.2 selfCounts
    | none => true
  if selfIsGreater && otherIsGreater then none
  else if selfIsGreater then some .gt
  else if otherIsGreater then some .lt
  else some .eq

/-- `a <= b` for `PnSet`. -/
def PnSet.le (a b : PnSet) : Bool := leOfCmp (PnSet.partCmp a b)

/-- `a >= b` for `PnSet`. -/
def PnSet.ge (a b : PnSet) : Bool := geOfCmp (PnSet.partCmp a b)

/-! Auxiliary lemmas about the canonical maps, used by the claim theorems. -/

theorem filter_insertWithL_of_none {V : Type} {c : V → V → V} {key : Nat}
    {val : V} {l : List (Nat × V)} {P : Nat × V → Bool}
    (hw : lookupL l key = none) (hv : P (key, val) = false) :
    (insertWithL c key val l).filter P = l.filter P := by
  induction l with
  | nil => simp [insertWithL, List.filter, hv]
  | cons q rest ih =>
    obtain ⟨k, v⟩ := q
    simp only [insertWithL]
    by_cases h1 : key < k
    · rw [if_pos h1]
      simp [List.filter, hv]
    · rw [if_neg h1]
      by_cases h2 : key = k
      · exfalso
        subst h2
        simp [lookupL] at hw
      · rw [if_neg h2]
        simp only [lookupL, if_neg h2] at hw
        simp [List.filter, ih hw]

theorem TpSet.contains_of_lookup_false {s : TpSet} {e : Nat}
    (h : s.elements.lookup e = some false) : s.contains e = false := by
  simp [TpSet.contains, h]

theorem SMap.insertWith_insertWith_self {V : Type} (m : SMap V)
    (c : V → V → V) (k : Nat) (v : V) (hc : ∀ x, c (c x v) v = c x v)
    (hv : c v v = v) :
    (m.insertWith c k v).insertWith c k v = m.insertWith c k v := by
  refine SMap.lookup_ext fun q => ?_
  by_cases hq : q = k
  · subst hq
    cases hm : m.lookup q with
    | none => simp [SMap.lookup_insertWith, hm, hv]
    | some old => simp [SMap.lookup_insertWith, hm, hc]
  · simp [SMap.lookup_insertWith, hq]

theorem Pn.merge_merge_self (x y : Pn) : (x.merge y).merge y = x.merge y := by
  rw [Pn.merge_assoc, Pn.merge_idem]

/-- The per-element combination performed by `LwwSet::merge`: replay the
incoming `(present, tid)` entry through the insert rule (`tid >=`) or the
remove rule (`tid >`, strict). -/
def lwwCombine (old incoming : Bool × Nat) : Bool × Nat :=
  if incoming.1 then (if old.2 ≤ incoming.2 then incoming else old)
  else (if old.2 < incoming.2 then incoming else old)

/-- The state effect of `LwwSet::insert` is an `insertWith` by `lwwCombine`. -/
theorem LwwSet.insert_state (s : LwwSet) (e tid : Nat) :
    (s.insert e tid).1.elements
      = s.elements.insertWith lwwCombine e (true, tid) := by
  cases h : s.elements.lookup e with
  | none =>
    show (s.insert e tid).1.elements = _
    simp only [LwwSet.insert, h]
    refine SMap.lookup_ext fun q => ?_
    rw [SMap.lookup_insertWith, SMap.lookup_insertWith]
    by_cases hq : q = e
    · rw [if_pos hq, if_pos hq, h]
    · rw [if_neg hq, if_neg hq]
  | some entry =>
    simp only [LwwSet.insert, h]
    by_cases hle : entry.2 ≤ tid
    · rw [if_pos hle]
      refine SMap.lookup_ext fun q => ?_
      rw [SMap.lookup_insertWith, SMap.lookup_insertWith]
      by_cases hq : q = e
      · rw [if_pos hq, if_pos hq, h]
        simp [lwwCombine, hle]
      · rw [if_neg hq, if_neg hq]
    · rw [if_neg hle]
      refine (SMap.insertWith_eq_self h ?_).symm
      simp [lwwCombine, hle]

/-- The state effect of `LwwSet::remove` is an `insertWith` by `lwwCombine`. -/
theorem LwwSet.remove_state (s : LwwSet) (e tid : Nat) :
    (s.remove e tid).1.elements
      = s.elements.insertWith lwwCombine e (false, tid) := by
  cases h : s.elements.lookup e with
  | none =>
    simp only [LwwSet.remove, h]
    refine SMap.lookup_ext fun q => ?_
    rw [SMap.lookup_insertWith, SMap.lookup_insertWith]
    by_cases hq : q = e
    · rw [if_pos hq, if_pos hq, h]
    · rw [if_neg hq, if_neg hq]
  | some entry =>
    simp only [LwwSet.remove, h]
    by_cases hlt : entry.2 < tid
    · rw [if_pos hlt]
      refine SMap.lookup_ext fun q => ?_
      rw [SMap.lookup_insertWith, SMap.lookup_insertWith]
      by_cases hq : q = e
      · rw [if_pos hq, if_pos hq, h]
        simp [lwwCombine, hlt]
      · rw [if_neg hq, if_neg hq]
    · rw [if_neg hlt]
      refine (SMap.insertWith_eq_self h ?_).symm
      simp [lwwCombine, hlt]

theorem lwwCombine_absorb (x v : Bool × Nat) :
    lwwCombine (lwwCombine x v) v = lwwCombine x v := by
  obtain ⟨b1, t1⟩ := x
  obtain ⟨b2, t2⟩ := v
  cases b2 <;> simp only [lwwCombine] <;> split_ifs <;> simp_all

theorem lwwCombine_self (v : Bool × Nat) : lwwCombine v v = v := by
  obtain ⟨b, t⟩ := v
  cases b <;> simp [lwwCombine]

theorem LwwRegister.reg_apply_apply {T : Type} (r op : LwwRegister T) :
    (r.apply op).apply op = r.apply op := by
  unfold LwwRegister.apply LwwRegister.merge
  by_cases h : r.transactionId ≤ op.transactionId
  · rw [if_pos h]
    rw [if_pos (le_refl _)]
  · rw [if_neg h, if_neg h]

theorem GSet.gset_insert_of_isSome {s : GSet} {e : Nat}
    (h : (s.elements.lookup e).isSome = true) : (s.insert e).1 = s := by
  unfold GSet.insert
  cases h2 : s.elements.lookup e with
  | some u => rfl
  | none =>
    rw [h2] at h
    exact absurd h (by simp)

theorem GSet.gset_apply_apply (s : GSet) (op : GSetInsert) :
    (s.apply op).apply op = s.apply op := by
  have hsome : ((s.apply op).elements.lookup op.element).isSome = true := by
    unfold GSet.apply GSet.insert
    cases h : s.elements.lookup op.element with
    | some u => simp [h]
    | none =>
      simp only
      rw [SMap.lookup_insertWith, if_pos rfl, h]
      rfl
  show ((s.apply op).insert op.element).1 = s.apply op
  exact GSet.gset_insert_of_isSome hsome

theorem TpSet.insert_lookup (s : TpSet) (e : Nat) :
    (((s.insert e).1.elements.lookup e).isSome) = true := by
  unfold TpSet.insert
  cases h : s.elements.lookup e with
  | some b => simp [h]
  | none =>
    simp only
    rw [SMap.lookup_insertWith, if_pos rfl, h]
    rfl

theorem TpSet.remove_lookup (s : TpSet) (e : Nat) :
    (s.remove e).1.elements.lookup e = some false := by
  unfold TpSet.remove
  cases h : s.elements.lookup e with
  | none =>
    simp only
    rw [SMap.lookup_insertWith, if_pos rfl, h]
  | some b =>
    cases b with
    | false => exact h
    | true =>
      simp only
      rw [SMap.lookup_insertWith, if_pos rfl, h]

theorem TpSet.tp_insert_of_isSome {s : TpSet} {e : Nat}
    (h : (s.elements.lookup e).isSome = true) : (s.insert e).1 = s := by
  unfold TpSet.insert
  cases h2 : s.elements.lookup e with
  | some b => rfl
  | none =>
    rw [h2] at h
    exact absurd h (by simp)

theorem TpSet.remove_of_false {s : TpSet} {e : Nat}
    (h : s.elements.lookup e = some false) : (s.remove e).1 = s := by
  unfold TpSet.remove
  rw [h]

theorem TpSet.tp_apply_apply (s : TpSet) (op : TpSetOp) :
    (s.apply op).apply op = s.apply op := by
  cases op with
  | Insert e =>
    show ((s.insert e).1.insert e).1 = (s.insert e).1
    exact TpSet.tp_insert_of_isSome (TpSet.insert_lookup s e)
  | Remove e =>
    show ((s.remove e).1.remove e).1 = (s.remove e).1
    exact TpSet.remove_of_false (TpSet.remove_lookup s e)

theorem LwwSet.lww_apply_apply (s : LwwSet) (op : LwwSetOp) :
    (s.apply op).apply op = s.apply op := by
  cases op with
  | Insert e tid =>
    refine LwwSet.lww_eq_of_elements ?_
    show ((s.insert e tid).1.insert e tid).1.elements
      = (s.insert e tid).1.elements
    rw [LwwSet.insert_state, LwwSet.insert_state]
    exact SMap.insertWith_insertWith_self _ _ _ _
      (fun x => lwwCombine_absorb x (true, tid)) (lwwCombine_self (true, tid))
  | Remove e tid =>
    refine LwwSet.lww_eq_of_elements ?_
    show ((s.remove e tid).1.remove e tid).1.elements
      = (s.remove e tid).1.elements
    rw [LwwSet.remove_state, LwwSet.remove_state]
    exact SMap.insertWith_insertWith_self _ _ _ _
      (fun x => lwwCombine_absorb x (false, tid)) (lwwCombine_self (false, tid))

theorem PnSet.pns_apply_apply (s : PnSet) (op : PnSetOp) :
    (s.apply op).apply op = s.apply op := by
  have hinner : ∀ y : SMap Pn,
      ((y.insertWith (fun old _ => old.merge op.pn) op.replicaId
          (Pn.new.merge op.pn)).insertWith (fun old _ => old.merge op.pn)
        op.replicaId (Pn.new.merge op.pn))
      = y.insertWith (fun old _ => old.merge op.pn) op.replicaId
          (Pn.new.merge op.pn) := fun y =>
    SMap.insertWith_insertWith_self y _ _ _
      (fun x => Pn.merge_merge_self x op.pn)
      (Pn.merge_merge_self Pn.new op.pn)
  unfold PnSet.apply
  simp only
  congr 1
  exact SMap.insertWith_insertWith_self _ _ _ _ (fun x => hinner x)
    (hinner SMap.empty)

theorem lwwCombine_cases (x y : Bool × Nat) :
    lwwCombine x y =
      if x.2 < y.2 then y else if y.2 < x.2 then x else (x.1 || y.1, x.2) := by
  obtain ⟨b1, t1⟩ := x
  obtain ⟨b2, t2⟩ := y
  rcases Nat.lt_trichotomy t1 t2 with h | h | h
  · have h1 : t1 ≤ t2 := Nat.le_of_lt h
    have h2 : ¬ t2 < t1 := by omega
    cases b2 <;> simp [lwwCombine, h, h1, h2]
  · subst h
    cases b2 <;> simp [lwwCombine]
  · have h1 : ¬ t1 ≤ t2 := by omega
    have h2 : ¬ t1 < t2 := by omega
    cases b2 <;> simp [lwwCombine, h, h1, h2]

/-- Encode a `(present, tid)` pair so that `lwwCombine` is "keep the larger
encoding": the transaction id dominates, and on a tid tie the present flag
wins. -/
def lwwKey (x : Bool × Nat) : Nat := 2 * x.2 + (if x.1 then 1 else 0)

theorem lwwCombine_key (x y : Bool × Nat) :
    lwwCombine x y = if lwwKey x < lwwKey y then y else x := by
  rw [lwwCombine_cases]
  obtain ⟨b1, t1⟩ := x
  obtain ⟨b2, t2⟩ := y
  rcases Nat.lt_trichotomy t1 t2 with h | h | h
  · have hk : lwwKey (b1, t1) < lwwKey (b2, t2) := by
      cases b1 <;> cases b2 <;> simp [lwwKey] <;> omega
    have h2 : ¬ t2 < t1 := by omega
    simp [h, h2, hk]
  · subst h
    cases b1 <;> cases b2 <;> simp [lwwKey]
  · have hk : ¬ lwwKey (b1, t1) < lwwKey (b2, t2) := by
      cases b1 <;> cases b2 <;> simp [lwwKey] <;> omega
    have h2 : ¬ t1 < t2 := by omega
    simp [h, h2, hk]

theorem lwwCombine_comm (x y : Bool × Nat) :
    lwwCombine x y = lwwCombine y x := by
  rw [lwwCombine_cases, lwwCombine_cases]
  rcases Nat.lt_trichotomy x.2 y.2 with h | h | h
  · simp [h, Nat.lt_asymm h]
  · simp [h, Bool.or_comm]
  · simp [h, Nat.lt_asymm h]

theorem lwwCombine_assoc (x y z : Bool × Nat) :
    lwwCombine (lwwCombine x y) z = lwwCombine x (lwwCombine y z) := by
  rw [lwwCombine_key x y, lwwCombine_key y z]
  by_cases h1 : lwwKey x < lwwKey y <;> by_cases h2 : lwwKey y < lwwKey z
  · rw [if_pos h1, if_pos h2, lwwCombine_key y z, if_pos h2,
      lwwCombine_key x z, if_pos (Nat.lt_trans h1 h2)]
  · rw [if_pos h1, if_neg h2, lwwCombine_key y z, if_neg h2,
      lwwCombine_key x y, if_pos h1]
  · rw [if_neg h1, if_pos h2]
  · rw [if_neg h1, if_neg h2, lwwCombine_key x z, if_neg (by omega),
      lwwCombine_key x y, if_neg h1]

theorem LwwSet.foldl_elements
    (l : List (Nat × (Bool × Nat))) (s : LwwSet) :
    (l.foldl (fun acc p =>
        if p.2.1 then (acc.insert p.1 p.2.2).1 else (acc.remove p.1 p.2.2).1)
      s).elements
    = l.foldl (fun m p => m.insertWith lwwCombine p.1 p.2) s.elements := by
  induction l generalizing s with
  | nil => rfl
  | cons p rest ih =>
    have heta : (p.2.1, p.2.2) = p.2 := rfl
    have hstep : (if p.2.1 then (s.insert p.1 p.2.2).1
          else (s.remove p.1 p.2.2).1).elements
        = s.elements.insertWith lwwCombine p.1 p.2 := by
      cases hp : p.2.1 with
      | true =>
        simp only [hp, if_true]
        rw [LwwSet.insert_state]
        rw [show ((true, p.2.2) : Bool × Nat) = p.2 from hp ▸ heta]
      | false =>
        simp only [hp, Bool.false_eq_true, if_false]
        rw [LwwSet.remove_state]
        rw [show ((false, p.2.2) : Bool × Nat) = p.2 from hp ▸ heta]
    rw [List.foldl_cons, List.foldl_cons, ih, hstep]

theorem SMap.foldl_insertWith_entries {V : Type} (c : V → V → V)
    (l : List (Nat × V)) (m : SMap V) :
    (l.foldl (fun acc p => acc.insertWith c p.1 p.2) m).entries
      = mergeL c m.entries l := by
  induction l generalizing m with
  | nil => rfl
  | cons p rest ih =>
    rw [List.foldl_cons]
    exact ih (m.insertWith c p.1 p.2)

/-- `LwwSet::merge` is the pointwise `lwwCombine` merge of the two maps. -/
theorem LwwSet.merge_eq_mergeWith (s other : LwwSet) :
    s.merge other = ⟨s.elements.mergeWith lwwCombine other.elements⟩ := by
  refine LwwSet.lww_eq_of_elements ?_
  show (other.elements.entries.foldl _ s).elements = _
  rw [LwwSet.foldl_elements]
  exact SMap.eq_of_entries (SMap.foldl_insertWith_entries _ _ _)

theorem LwwRegister.merge_tid {T : Type} (a b : LwwRegister T) :
    (a.merge b).transactionId = max a.transactionId b.transactionId := by
  unfold LwwRegister.merge
  by_cases h : a.transactionId ≤ b.transactionId
  · rw [if_pos h]
    show b.transactionId = _
    omega
  · rw [if_neg h]
    omega

theorem LwwRegister.reg_merge_self {T : Type} (a : LwwRegister T) :
    a.merge a = a := by
  unfold LwwRegister.merge
  rw [if_pos (le_refl _)]

/-! Characterization of `GCounter::partial_cmp`. -/

theorem GCounter.gc_aGtB_eq_false {a b : GCounter} :
    GCounter.aGtB a b = false ↔
      ∀ p ∈ a.counts.entries, ∃ bCount,
        b.counts.lookup p.1 = some bCount ∧ p.2 ≤ bCount := by
  unfold GCounter.aGtB
  rw [Bool.eq_false_iff, Ne, List.any_eq_true]
  constructor
  · intro h p hp
    cases hb : b.counts.lookup p.1 with
    | none =>
      exact absurd ⟨p, hp, by rw [hb]⟩ h
    | some bc =>
      refine ⟨bc, rfl, ?_⟩
      by_cases hlt : bc < p.2
      · exact absurd ⟨p, hp, by rw [hb]; simpa⟩ h
      · omega
  · rintro h ⟨p, hp, hf⟩
    obtain ⟨bc, hbc, hle⟩ := h p hp
    rw [hbc] at hf
    simp at hf
    omega

theorem GCounter.gc_aGtB_of_len {a b : GCounter}
    (h : b.counts.len < a.counts.len) : GCounter.aGtB a b = true := by
  cases hab : GCounter.aGtB a b
  · exfalso
    have hdom := GCounter.gc_aGtB_eq_false.mp hab
    have : a.counts.len ≤ b.counts.len :=
      SMap.len_le_of_lookup_isSome a.counts b.counts fun p hp => by
        obtain ⟨bc, hbc, _⟩ := hdom p hp
        rw [hbc]; rfl
    omega
  · rfl

theorem GCounter.gc_partCmp_eq (a b : GCounter) :
    GCounter.partCmp a b =
      match GCounter.aGtB a b, GCounter.aGtB b a with
      | true, true => none
      | true, false => some .gt
      | false, true => some .lt
      | false, false => some .eq := by
  unfold GCounter.partCmp
  rcases Nat.lt_trichotomy a.counts.len b.counts.len with h | h | h
  · rw [(Nat.compare_eq_lt ..).mpr h, GCounter.gc_aGtB_of_len h]
    cases GCounter.aGtB a b <;> rfl
  · rw [(Nat.compare_eq_eq ..).mpr h]
    cases GCounter.aGtB a b <;> cases GCounter.aGtB b a <;> rfl
  · rw [(Nat.compare_eq_gt ..).mpr h, GCounter.gc_aGtB_of_len h]
    cases GCounter.aGtB b a <;> rfl

theorem GCounter.gc_le_eq (a b : GCounter) :
    GCounter.le a b = !GCounter.aGtB a b := by
  unfold GCounter.le
  rw [GCounter.gc_partCmp_eq]
  cases GCounter.aGtB a b <;> cases GCounter.aGtB b a <;> rfl

theorem GCounter.gc_ge_eq (a b : GCounter) :
    GCounter.ge a b = !GCounter.aGtB b a := by
  unfold GCounter.ge
  rw [GCounter.gc_partCmp_eq]
  cases GCounter.aGtB a b <;> cases GCounter.aGtB b a <;> rfl

theorem GCounter.gc_dom_iff_merge {a b : GCounter} :
    (∀ p ∈ a.counts.entries, ∃ bCount,
        b.counts.lookup p.1 = some bCount ∧ p.2 ≤ bCount) ↔
      GCounter.eqv (a.merge b) b := by
  constructor
  · intro h
    refine SMap.lookup_ext fun k => ?_
    show (a.counts.mergeWith _ b.counts).lookup k = _
    rw [SMap.lookup_mergeWith]
    cases ha : a.counts.lookup k with
    | none =>
      cases b.counts.lookup k <;> rfl
    | some v =>
      obtain ⟨bc, hbc, hle⟩ := h (k, v) (SMap.lookup_mem ha)
      rw [hbc]
      show some (max v bc) = some bc
      rw [Nat.max_eq_right hle]
  · intro h p hp
    have hla : a.counts.lookup p.1 = some p.2 := SMap.lookup_of_mem hp
    have hmb : (a.merge b).counts.lookup p.1 = b.counts.lookup p.1 := by
      rw [h]
    rw [show (a.merge b).counts = a.counts.mergeWith
        (fun x y => max x y) b.counts from rfl] at hmb
    rw [SMap.lookup_mergeWith, hla] at hmb
    cases hb : b.counts.lookup p.1 with
    | none =>
      rw [hb] at hmb
      exact absurd hmb (by simp [combineOpt])
    | some bc =>
      rw [hb] at hmb
      refine ⟨bc, rfl, ?_⟩
      have : max p.2 bc = bc := by simpa [combineOpt] using hmb
      omega

theorem GCounter.gc_dom_merge_left (a b : GCounter) :
    ∀ p ∈ a.counts.entries, ∃ c,
      (a.merge b).counts.lookup p.1 = some c ∧ p.2 ≤ c := by
  intro p hp
  have hla : a.counts.lookup p.1 = some p.2 := SMap.lookup_of_mem hp
  show ∃ c, (a.counts.mergeWith _ b.counts).lookup p.1 = some c ∧ p.2 ≤ c
  rw [SMap.lookup_mergeWith, hla]
  cases b.counts.lookup p.1 with
  | none => exact ⟨p.2, rfl, le_refl _⟩
  | some bc => exact ⟨max p.2 bc, rfl, Nat.le_max_left _ _⟩

theorem GCounter.gc_dom_merge_right (a b : GCounter) :
    ∀ p ∈ b.counts.entries, ∃ c,
      (a.merge b).counts.lookup p.1 = some c ∧ p.2 ≤ c := by
  intro p hp
  have hlb : b.counts.lookup p.1 = some p.2 := SMap.lookup_of_mem hp
  show ∃ c, (a.counts.mergeWith _ b.counts).lookup p.1 = some c ∧ p.2 ≤ c
  rw [SMap.lookup_mergeWith, hlb]
  cases a.counts.lookup p.1 with
  | none => exact ⟨p.2, rfl, le_refl _⟩
  | some ac => exact ⟨max ac p.2, rfl, Nat.le_max_right _ _⟩

theorem GCounter.gc_merge_counts_comm (a b : GCounter) :
    (a.merge b).counts = (b.merge a).counts :=
  SMap.mergeWith_comm (fun x y => Nat.max_comm x y) a.counts b.counts

/-! Characterization of `PnCounter::partial_cmp`, parallel to `GCounter`. -/

theorem PnCounter.pc_aGtB_eq_false {a b : PnCounter} :
    PnCounter.aGtB a b = false ↔
      ∀ p ∈ a.counts.entries, ∃ bCounts,
        b.counts.lookup p.1 = some bCounts ∧
        p.2.1 ≤ bCounts.1 ∧ p.2.2 ≤ bCounts.2 := by
  unfold PnCounter.aGtB
  rw [Bool.eq_false_iff, Ne, List.any_eq_true]
  constructor
  · intro h p hp
    cases hb : b.counts.lookup p.1 with
    | none =>
      exact absurd ⟨p, hp, by rw [hb]⟩ h
    | some bc =>
      refine ⟨bc, rfl, ?_, ?_⟩
      · by_cases hlt : bc.1 < p.2.1
        · exact absurd ⟨p, hp, by rw [hb]; simp [hlt]⟩ h
        · omega
      · by_cases hlt : bc.2 < p.2.2
        · exact absurd ⟨p, hp, by rw [hb]; simp [hlt]⟩ h
        · omega
  · rintro h ⟨p, hp, hf⟩
    obtain ⟨bc, hbc, hle1, hle2⟩ := h p hp
    rw [hbc] at hf
    simp at hf
    omega

theorem PnCounter.pc_aGtB_of_len {a b : PnCounter}
    (h : b.counts.len < a.counts.len) : PnCounter.aGtB a b = true := by
  cases hab : PnCounter.aGtB a b
  · exfalso
    have hdom := PnCounter.pc_aGtB_eq_false.mp hab
    have : a.counts.len ≤ b.counts.len :=
      SMap.len_le_of_lookup_isSome a.counts b.counts fun p hp => by
        obtain ⟨bc, hbc, _⟩ := hdom p hp
        rw [hbc]; rfl
    omega
  · rfl

theorem PnCounter.pc_partCmp_eq (a b : PnCounter) :
    PnCounter.partCmp a b =
      match PnCounter.aGtB a b, PnCounter.aGtB b a with
      | true, true => none
      | true, false => some .gt
      | false, true => some .lt
      | false, false => some .eq := by
  unfold PnCounter.partCmp
  rcases Nat.lt_trichotomy a.counts.len b.counts.len with h | h | h
  · rw [(Nat.compare_eq_lt ..).mpr h, PnCounter.pc_aGtB_of_len h]
    cases PnCounter.aGtB a b <;> rfl
  · rw [(Nat.compare_eq_eq ..).mpr h]
    cases PnCounter.aGtB a b <;> cases PnCounter.aGtB b a <;> rfl
  · rw [(Nat.compare_eq_gt ..).mpr h, PnCounter.pc_aGtB_of_len h]
    cases PnCounter.aGtB b a <;> rfl

theorem PnCounter.pc_le_eq (a b : PnCounter) :
    PnCounter.le a b = !PnCounter.aGtB a b := by
  unfold PnCounter.le
  rw [PnCounter.pc_partCmp_eq]
  cases PnCounter.aGtB a b <;> cases PnCounter.aGtB b a <;> rfl

theorem PnCounter.pc_ge_eq (a b : PnCounter) :
    PnCounter.ge a b = !PnCounter.aGtB b a := by
  unfold PnCounter.ge
  rw [PnCounter.pc_partCmp_eq]
  cases PnCounter.aGtB a b <;> cases PnCounter.aGtB b a <;> rfl

theorem PnCounter.pc_dom_iff_merge {a b : PnCounter} :
    (∀ p ∈ a.counts.entries, ∃ bCounts,
        b.counts.lookup p.1 = some bCounts ∧
        p.2.1 ≤ bCounts.1 ∧ p.2.2 ≤ bCounts.2) ↔
      PnCounter.eqv (a.merge b) b := by
  constructor
  · intro h
    refine SMap.lookup_ext fun k => ?_
    show (a.counts.mergeWith _ b.counts).lookup k = _
    rw [SMap.lookup_mergeWith]
    cases ha : a.counts.lookup k with
    | none =>
      cases b.counts.lookup k <;> rfl
    | some v =>
      obtain ⟨bc, hbc, hle1, hle2⟩ := h (k, v) (SMap.lookup_mem ha)
      rw [hbc]
      show some (max v.1 bc.1, max v.2 bc.2) = some bc
      rw [Nat.max_eq_right hle1, Nat.max_eq_right hle2]
  · intro h p hp
    have hla : a.counts.lookup p.1 = some p.2 := SMap.lookup_of_mem hp
    have hmb : (a.merge b).counts.lookup p.1 = b.counts.lookup p.1 := by
      rw [h]
    rw [show (a.merge b).counts = a.counts.mergeWith
        (fun x y => (max x.1 y.1, max x.2 y.2)) b.counts from rfl] at hmb
    rw [SMap.lookup_mergeWith, hla] at hmb
    cases hb : b.counts.lookup p.1 with
    | none =>
      rw [hb] at hmb
      exact absurd hmb (by simp [combineOpt])
    | some bc =>
      rw [hb] at hmb
      refine ⟨bc, rfl, ?_, ?_⟩
      · have : max p.2.1 bc.1 = bc.1 := by
          have := hmb
          simp [combineOpt] at this
          exact congrArg Prod.fst this
        omega
      · have : max p.2.2 bc.2 = bc.2 := by
          have := hmb
          simp [combineOpt] at this
          exact congrArg Prod.snd this
        omega

theorem PnCounter.pc_dom_merge_left (a b : PnCounter) :
    ∀ p ∈ a.counts.entries, ∃ c,
      (a.merge b).counts.lookup p.1 = some c ∧ p.2.1 ≤ c.1 ∧ p.2.2 ≤ c.2 := by
  intro p hp
  have hla : a.counts.lookup p.1 = some p.2 := SMap.lookup_of_mem hp
  show ∃ c, (a.counts.mergeWith _ b.counts).lookup p.1 = some c ∧ _ ∧ _
  rw [SMap.lookup_mergeWith, hla]
  cases b.counts.lookup p.1 with
  | none => exact ⟨p.2, rfl, le_refl _, le_refl _⟩
  | some bc =>
    exact ⟨(max p.2.1 bc.1, max p.2.2 bc.2), rfl,
      Nat.le_max_left _ _, Nat.le_max_left _ _⟩

theorem PnCounter.pc_dom_merge_right (a b : PnCounter) :
    ∀ p ∈ b.counts.entries, ∃ c,
      (a.merge b).counts.lookup p.1 = some c ∧ p.2.1 ≤ c.1 ∧ p.2.2 ≤ c.2 := by
  intro p hp
  have hlb : b.counts.lookup p.1 = some p.2 := SMap.lookup_of_mem hp
  show ∃ c, (a.counts.mergeWith _ b.counts).lookup p.1 = some c ∧ _ ∧ _
  rw [SMap.lookup_mergeWith, hlb]
  cases a.counts.lookup p.1 with
  | none => exact ⟨p.2, rfl, le_refl _, le_refl _⟩
  | some ac =>
    exact ⟨(max ac.1 p.2.1, max ac.2 p.2.2), rfl,
      Nat.le_max_right _ _, Nat.le_max_right _ _⟩

theorem PnCounter.pc_merge_counts_comm (a b : PnCounter) :
    (a.merge b).counts = (b.merge a).counts :=
  SMap.mergeWith_comm
    (fun x y => by simp [Nat.max_comm x.1 y.1, Nat.max_comm x.2 y.2])
    a.counts b.counts

/-! Characterization of `GSet::partial_cmp` and `GSet::merge`. -/

theorem GSet.isSubset_iff {a b : GSet} :
    GSet.isSubset a b = true ↔
      ∀ p ∈ a.elements.entries, (b.elements.lookup p.1).isSome = true := by
  unfold GSet.isSubset
  rw [List.all_eq_true]

theorem GSet.subset_iff_merge {a b : GSet} :
    GSet.isSubset a b = true ↔ a.merge b = b := by
  rw [GSet.isSubset_iff]
  constructor
  · intro h
    refine GSet.gset_eq_of_elements (SMap.lookup_ext fun k => ?_)
    show (a.elements.mergeWith _ b.elements).lookup k = _
    rw [SMap.lookup_mergeWith]
    cases ha : a.elements.lookup k with
    | none => cases b.elements.lookup k <;> rfl
    | some u =>
      have hin := h (k, u) (SMap.lookup_mem ha)
      cases hb : b.elements.lookup k with
      | none =>
        rw [hb] at hin
        exact absurd hin (by simp)
      | some w => cases u; cases w; rfl
  · intro h p hp
    have hla : a.elements.lookup p.1 = some p.2 := SMap.lookup_of_mem hp
    have hmb : (a.merge b).elements.lookup p.1 = b.elements.lookup p.1 := by
      rw [h]
    rw [show (a.merge b).elements
        = a.elements.mergeWith (fun old _ => old) b.elements from rfl,
      SMap.lookup_mergeWith, hla] at hmb
    cases hb : b.elements.lookup p.1 with
    | none =>
      rw [hb] at hmb
      exact absurd hmb (by simp [combineOpt])
    | some w => rfl

theorem GSet.gset_merge_comm (a b : GSet) : a.merge b = b.merge a :=
  GSet.gset_eq_of_elements
    (SMap.mergeWith_comm (fun x y => by cases x; cases y; rfl)
      a.elements b.elements)

theorem GSet.subset_merge_left (a b : GSet) :
    GSet.isSubset a (a.merge b) = true := by
  rw [GSet.isSubset_iff]
  intro p hp
  have hla := SMap.lookup_of_mem hp
  show ((a.elements.mergeWith _ b.elements).lookup p.1).isSome = true
  rw [SMap.lookup_mergeWith, hla]
  cases b.elements.lookup p.1 <;> rfl

theorem GSet.subset_merge_right (a b : GSet) :
    GSet.isSubset b (a.merge b) = true := by
  rw [GSet.gset_merge_comm]
  exact GSet.subset_merge_left b a

theorem GSet.subset_antisymm {a b : GSet} (h1 : GSet.isSubset a b = true)
    (h2 : GSet.isSubset b a = true) : a = b := by
  rw [GSet.isSubset_iff] at h1 h2
  refine GSet.gset_eq_of_elements (SMap.lookup_ext fun k => ?_)
  cases ha : a.elements.lookup k with
  | some u =>
    have hin := h1 (k, u) (SMap.lookup_mem ha)
    cases hb : b.elements.lookup k with
    | none =>
      rw [hb] at hin
      exact absurd hin (by simp)
    | some w => cases u; cases w; rfl
  | none =>
    cases hb : b.elements.lookup k with
    | none => rfl
    | some w =>
      have hin := h2 (k, w) (SMap.lookup_mem hb)
      rw [ha] at hin
      exact absurd hin (by simp)

/-! Characterization of `PnSet::partial_cmp` and `PnSet::merge`. -/

/-- Pointwise domination of one element's per-replica map by another: the
negation of the nested `a_gt_b` of pnset.rs. -/
def PnSet.innerDom (x y : SMap Pn) : Prop :=
  ∀ q ∈ x.entries, ∃ pn, y.lookup q.1 = some pn ∧ q.2.p ≤ pn.p ∧ q.2.n ≤ pn.n

/-- The `self_is_greater` / `other_is_greater` flags of `PnSet::partial_cmp`. -/
def PnSet.gtFlag (a b : PnSet) : Bool :=
  a.elements.entries.any fun p =>
    match b.elements.lookup p.1 with
    | some otherCounts => PnSet.innerGt p.2 otherCounts
    | none => true

/-- Entry-wise domination of one `PnSet` state by another: the negation of a
`gtFlag`. -/
def PnSet.outerDom (a b : PnSet) : Prop :=
  ∀ p ∈ a.elements.entries, ∃ oc,
    b.elements.lookup p.1 = some oc ∧ PnSet.innerDom p.2 oc

theorem PnSet.innerDom_len {x y : SMap Pn} (h : PnSet.innerDom x y) :
    x.len ≤ y.len :=
  SMap.len_le_of_lookup_isSome x y fun q hq => by
    obtain ⟨pn, hpn, _⟩ := h q hq
    rw [hpn]; rfl

theorem PnSet.innerGt_eq_false {x y : SMap Pn} :
    PnSet.innerGt x y = false ↔ PnSet.innerDom x y := by
  unfold PnSet.innerGt
  rw [Bool.or_eq_false_iff]
  constructor
  · rintro ⟨h1, h2⟩
    rw [Bool.eq_false_iff, Ne, List.any_eq_true] at h2
    intro q hq
    cases hb : y.lookup q.1 with
    | none => exact absurd ⟨q, hq, by rw [hb]⟩ h2
    | some pn =>
      refine ⟨pn, rfl, ?_, ?_⟩
      · by_cases hlt : pn.p < q.2.p
        · exact absurd ⟨q, hq, by rw [hb]; simp [hlt]⟩ h2
        · omega
      · by_cases hlt : pn.n < q.2.n
        · exact absurd ⟨q, hq, by rw [hb]; simp [hlt]⟩ h2
        · omega
  · intro h
    refine ⟨?_, ?_⟩
    · have := PnSet.innerDom_len h
      simp only [decide_eq_false_iff_not]
      omega
    · rw [Bool.eq_false_iff, Ne, List.any_eq_true]
      rintro ⟨q, hq, hf⟩
      obtain ⟨pn, hpn, h1, h2⟩ := h q hq
      rw [hpn] at hf
      simp at hf
      omega

theorem PnSet.gtFlag_eq_false {a b : PnSet} :
    PnSet.gtFlag a b = false ↔ PnSet.outerDom a b := by
  unfold PnSet.gtFlag
  rw [Bool.eq_false_iff, Ne, List.any_eq_true]
  constructor
  · intro h p hp
    cases hb : b.elements.lookup p.1 with
    | none => exact absurd ⟨p, hp, by rw [hb]⟩ h
    | some oc =>
      refine ⟨oc, rfl, ?_⟩
      rw [← PnSet.innerGt_eq_false]
      cases hgt : PnSet.innerGt p.2 oc
      · rfl
      · exact absurd ⟨p, hp, by rw [hb]; exact hgt⟩ h
  · rintro h ⟨p, hp, hf⟩
    obtain ⟨oc, hoc, hdom⟩ := h p hp
    rw [hoc] at hf
    have hf2 : PnSet.innerGt p.2 oc = true := hf
    rw [PnSet.innerGt_eq_false.mpr hdom] at hf2
    exact Bool.noConfusion hf2

theorem Pn.merge_eq_right {v pn : Pn} (h1 : v.p ≤ pn.p) (h2 : v.n ≤ pn.n) :
    v.merge pn = pn := by
  show Pn.mk (max v.p pn.p) (max v.n pn.n) = pn
  rw [Nat.max_eq_right h1, Nat.max_eq_right h2]

theorem PnSet.innerDom_iff_merge {x y : SMap Pn} :
    PnSet.innerDom x y ↔ x.mergeWith Pn.merge y = y := by
  constructor
  · intro h
    refine SMap.lookup_ext fun k => ?_
    rw [SMap.lookup_mergeWith]
    cases hx : x.lookup k with
    | none => cases y.lookup k <;> rfl
    | some v =>
      obtain ⟨pn, hpn, h1, h2⟩ := h (k, v) (SMap.lookup_mem hx)
      rw [hpn]
      show some (v.merge pn) = some pn
      rw [Pn.merge_eq_right h1 h2]
  · intro h q hq
    have hx := SMap.lookup_of_mem hq
    have hm : (x.mergeWith Pn.merge y).lookup q.1 = y.lookup q.1 := by rw [h]
    rw [SMap.lookup_mergeWith, hx] at hm
    cases hy : y.lookup q.1 with
    | none =>
      rw [hy] at hm
      exact absurd hm (by simp [combineOpt])
    | some pn =>
      rw [hy] at hm
      have hmp : q.2.merge pn = pn := by simpa [combineOpt] using hm
      refine ⟨pn, rfl, ?_, ?_⟩
      · have := congrArg Pn.p hmp
        simp only [Pn.merge] at this
        omega
      · have := congrArg Pn.n hmp
        simp only [Pn.merge] at this
        omega

theorem PnSet.outerDom_iff_merge {a b : PnSet} :
    PnSet.outerDom a b ↔ PnSet.eqv (a.merge b) b := by
  constructor
  · intro h
    refine SMap.lookup_ext fun k => ?_
    show (a.elements.mergeWith _ b.elements).lookup k = _
    rw [SMap.lookup_mergeWith]
    cases ha : a.elements.lookup k with
    | none => cases b.elements.lookup k <;> rfl
    | some ia =>
      obtain ⟨oc, hoc, hdom⟩ := h (k, ia) (SMap.lookup_mem ha)
      rw [hoc]
      show some (ia.mergeWith Pn.merge oc) = some oc
      rw [PnSet.innerDom_iff_merge.mp hdom]
  · intro h p hp
    have hla : a.elements.lookup p.1 = some p.2 := SMap.lookup_of_mem hp
    have hm : (a.merge b).elements.lookup p.1 = b.elements.lookup p.1 := by
      rw [show (a.merge b).elements = _ from rfl, h]
    rw [show (a.merge b).elements = a.elements.mergeWith
        (fun selfCounts otherCounts =>
          selfCounts.mergeWith Pn.merge otherCounts) b.elements from rfl,
      SMap.lookup_mergeWith, hla] at hm
    cases hb : b.elements.lookup p.1 with
    | none =>
      rw [hb] at hm
      exact absurd hm (by simp [combineOpt])
    | some oc =>
      rw [hb] at hm
      have : p.2.mergeWith Pn.merge oc = oc := by
        simpa [combineOpt] using hm
      exact ⟨oc, rfl, PnSet.innerDom_iff_merge.mpr this⟩

theorem PnSet.innerDom_refl (x : SMap Pn) : PnSet.innerDom x x := fun q hq =>
  ⟨q.2, SMap.lookup_of_mem hq, le_refl _, le_refl _⟩

theorem PnSet.innerDom_merge_left (x y : SMap Pn) :
    PnSet.innerDom x (x.mergeWith Pn.merge y) := by
  intro q hq
  have hx := SMap.lookup_of_mem hq
  rw [SMap.lookup_mergeWith, hx]
  cases y.lookup q.1 with
  | none => exact ⟨q.2, rfl, le_refl _, le_refl _⟩
  | some w =>
    exact ⟨q.2.merge w, rfl, Nat.le_max_left _ _, Nat.le_max_left _ _⟩

theorem PnSet.innerDom_merge_right (x y : SMap Pn) :
    PnSet.innerDom y (x.mergeWith Pn.merge y) := by
  intro q hq
  have hy := SMap.lookup_of_mem hq
  rw [SMap.lookup_mergeWith, hy]
  cases x.lookup q.1 with
  | none => exact ⟨q.2, rfl, le_refl _, le_refl _⟩
  | some w =>
    exact ⟨w.merge q.2, rfl, Nat.le_max_right _ _, Nat.le_max_right _ _⟩

theorem PnSet.outerDom_merge_left (a b : PnSet) :
    PnSet.outerDom a (a.merge b) := by
  intro p hp
  have hla := SMap.lookup_of_mem hp
  show ∃ oc, (a.elements.mergeWith _ b.elements).lookup p.1 = some oc ∧ _
  rw [SMap.lookup_mergeWith, hla]
  cases b.elements.lookup p.1 with
  | none => exact ⟨p.2, rfl, PnSet.innerDom_refl p.2⟩
  | some ob =>
    exact ⟨p.2.mergeWith Pn.merge ob, rfl, PnSet.innerDom_merge_left p.2 ob⟩

theorem PnSet.outerDom_merge_right (a b : PnSet) :
    PnSet.outerDom b (a.merge b) := by
  intro p hp
  have hlb := SMap.lookup_of_mem hp
  show ∃ oc, (a.elements.mergeWith _ b.elements).lookup p.1 = some oc ∧ _
  rw [SMap.lookup_mergeWith, hlb]
  cases a.elements.lookup p.1 with
  | none => exact ⟨p.2, rfl, PnSet.innerDom_refl p.2⟩
  | some oa =>
    exact ⟨oa.mergeWith Pn.merge p.2, rfl, PnSet.innerDom_merge_right oa p.2⟩

theorem PnSet.merge_elements_comm (a b : PnSet) :
    (a.merge b).elements = (b.merge a).elements :=
  SMap.mergeWith_comm (fun x y => SMap.mergeWith_comm Pn.merge_comm x y)
    a.elements b.elements

theorem PnSet.pns_partCmp_eq (a b : PnSet) :
    PnSet.partCmp a b =
      if PnSet.gtFlag a b && PnSet.gtFlag b a then none
      else if PnSet.gtFlag a b then some .gt
      else if PnSet.gtFlag b a then some .lt
      else some .eq := rfl

theorem PnSet.pns_le_eq (a b : PnSet) : PnSet.le a b = !PnSet.gtFlag a b := by
  unfold PnSet.le
  rw [PnSet.pns_partCmp_eq]
  cases PnSet.gtFlag a b <;> cases PnSet.gtFlag b a <;> rfl

theorem PnSet.pns_ge_eq (a b : PnSet) : PnSet.ge a b = !PnSet.gtFlag b a := by
  unfold PnSet.ge
  rw [PnSet.pns_partCmp_eq]
  cases PnSet.gtFlag a b <;> cases PnSet.gtFlag b a <;> rfl

theorem GSet.gset_le_iff (a b : GSet) :
    GSet.le a b = true ↔ GSet.isSubset a b = true := by
  unfold GSet.le GSet.partCmp
  by_cases heq : a.elements = b.elements
  · rw [if_pos heq]
    constructor
    · intro _
      rw [GSet.isSubset_iff]
      intro p hp
      have : a.elements.lookup p.1 = some p.2 := SMap.lookup_of_mem hp
      rw [← heq, this]
      rfl
    · intro _; rfl
  · rw [if_neg heq]
    by_cases hsub : GSet.isSubset a b = true
    · rw [if_pos hsub]
      simp [leOfCmp, hsub]
    · rw [if_neg hsub]
      by_cases hsup : GSet.isSubset b a = true
      · rw [if_pos hsup]
        simp [leOfCmp, hsub]
      · rw [if_neg hsup]
        simp [leOfCmp, hsub]

theorem GSet.gset_ge_iff (a b : GSet) :
    GSet.ge a b = true ↔ GSet.isSubset b a = true := by
  unfold GSet.ge GSet.partCmp
  by_cases heq : a.elements = b.elements
  · rw [if_pos heq]
    constructor
    · intro _
      rw [GSet.isSubset_iff]
      intro p hp
      have : b.elements.lookup p.1 = some p.2 := SMap.lookup_of_mem hp
      rw [heq, this]
      rfl
    · intro _; rfl
  · rw [if_neg heq]
    by_cases hsub : GSet.isSubset a b = true
    · rw [if_pos hsub]
      constructor
      · intro h
        exact Bool.noConfusion h
      · intro hsup
        exact absurd (GSet.subset_antisymm hsub hsup)
          fun h => heq (by rw [h])
    · rw [if_neg hsub]
      by_cases hsup : GSet.isSubset b a = true
      · rw [if_pos hsup]
        simp [geOfCmp, hsup]
      · rw [if_neg hsup]
        simp [geOfCmp, hsup]

theorem LwwRegister.reg_le_iff {T : Type} (a b : LwwRegister T) :
    LwwRegister.le a b = true ↔ a.transactionId ≤ b.transactionId := by
  unfold LwwRegister.le LwwRegister.partCmp
  cases h : compare a.transactionId b.transactionId with
  | lt =>
    have := (Nat.compare_eq_lt ..).mp h
    simp only [leOfCmp]
    constructor
    · intro _; omega
    · intro _; trivial
  | eq =>
    have := (Nat.compare_eq_eq ..).mp h
    simp only [leOfCmp]
    constructor
    · intro _; omega
    · intro _; trivial
  | gt =>
    have := (Nat.compare_eq_gt ..).mp h
    simp only [leOfCmp]
    constructor
    · intro hfalse; exact Bool.noConfusion hfalse
    · intro hle; omega

theorem LwwRegister.reg_ge_iff {T : Type} (a b : LwwRegister T) :
    LwwRegister.ge a b = true ↔ b.transactionId ≤ a.transactionId := by
  unfold LwwRegister.ge LwwRegister.partCmp
  cases h : compare a.transactionId b.transactionId with
  | lt =>
    have := (Nat.compare_eq_lt ..).mp h
    simp only [geOfCmp]
    constructor
    · intro hfalse; exact Bool.noConfusion hfalse
    · intro hle; omega
  | eq =>
    have := (Nat.compare_eq_eq ..).mp h
    simp only [geOfCmp]
    constructor
    · intro _; omega
    · intro _; trivial
  | gt =>
    have := (Nat.compare_eq_gt ..).mp h
    simp only [geOfCmp]
    constructor
    · intro _; omega
    · intro _; trivial

theorem LwwRegister.eqv_merge_left {T : Type} (a b : LwwRegister T) :
    LwwRegister.eqv (a.merge b) a ↔ b.transactionId ≤ a.transactionId := by
  unfold LwwRegister.eqv
  rw [LwwRegister.merge_tid]
  constructor
  · intro h; omega
  · intro h; omega

theorem LwwRegister.eqv_merge_right {T : Type} (a b : LwwRegister T) :
    LwwRegister.eqv (a.merge b) b ↔ a.transactionId ≤ b.transactionId := by
  unfold LwwRegister.eqv
  rw [LwwRegister.merge_tid]
  constructor
  · intro h; omega
  · intro h; omega

theorem GCounter.gc_partCmp_characterization (a b : GCounter) :
    (GCounter.partCmp a b = none ↔
      ¬ GCounter.eqv (a.merge b) a ∧ ¬ GCounter.eqv (a.merge b) b) ∧
    (GCounter.partCmp a b = some .eq ↔
      GCounter.eqv (a.merge b) a ∧ GCounter.eqv (a.merge b) b) ∧
    (GCounter.partCmp a b = some .lt ↔
      GCounter.eqv (a.merge b) b ∧ ¬ GCounter.eqv (a.merge b) a) ∧
    (GCounter.partCmp a b = some .gt ↔
      GCounter.eqv (a.merge b) a ∧ ¬ GCounter.eqv (a.merge b) b) := by
  have HB : GCounter.aGtB a b = false ↔ GCounter.eqv (a.merge b) b :=
    GCounter.gc_aGtB_eq_false.trans GCounter.gc_dom_iff_merge
  have HA : GCounter.aGtB b a = false ↔ GCounter.eqv (a.merge b) a := by
    refine (GCounter.gc_aGtB_eq_false.trans GCounter.gc_dom_iff_merge).trans ?_
    unfold GCounter.eqv
    rw [GCounter.gc_merge_counts_comm]
  rw [GCounter.gc_partCmp_eq]
  cases hab : GCounter.aGtB a b <;> cases hba : GCounter.aGtB b a <;>
    rw [hab] at HB <;> rw [hba] at HA <;>
    refine ⟨?_, ?_, ?_, ?_⟩ <;> simp_all

theorem PnCounter.pc_partCmp_characterization (a b : PnCounter) :
    (PnCounter.partCmp a b = none ↔
      ¬ PnCounter.eqv (a.merge b) a ∧ ¬ PnCounter.eqv (a.merge b) b) ∧
    (PnCounter.partCmp a b = some .eq ↔
      PnCounter.eqv (a.merge b) a ∧ PnCounter.eqv (a.merge b) b) ∧
    (PnCounter.partCmp a b = some .lt ↔
      PnCounter.eqv (a.merge b) b ∧ ¬ PnCounter.eqv (a.merge b) a) ∧
    (PnCounter.partCmp a b = some .gt ↔
      PnCounter.eqv (a.merge b) a ∧ ¬ PnCounter.eqv (a.merge b) b) := by
  have HB : PnCounter.aGtB a b = false ↔ PnCounter.eqv (a.merge b) b :=
    PnCounter.pc_aGtB_eq_false.trans PnCounter.pc_dom_iff_merge
  have HA : PnCounter.aGtB b a = false ↔ PnCounter.eqv (a.merge b) a := by
    refine (PnCounter.pc_aGtB_eq_false.trans PnCounter.pc_dom_iff_merge).trans ?_
    unfold PnCounter.eqv
    rw [PnCounter.pc_merge_counts_comm]
  rw [PnCounter.pc_partCmp_eq]
  cases hab : PnCounter.aGtB a b <;> cases hba : PnCounter.aGtB b a <;>
    rw [hab] at HB <;> rw [hba] at HA <;>
    refine ⟨?_, ?_, ?_, ?_⟩ <;> simp_all

theorem PnSet.pns_partCmp_characterization (a b : PnSet) :
    (PnSet.partCmp a b = none ↔
      ¬ PnSet.eqv (a.merge b) a ∧ ¬ PnSet.eqv (a.merge b) b) ∧
    (PnSet.partCmp a b = some .eq ↔
      PnSet.eqv (a.merge b) a ∧ PnSet.eqv (a.merge b) b) ∧
    (PnSet.partCmp a b = some .lt ↔
      PnSet.eqv (a.merge b) b ∧ ¬ PnSet.eqv (a.merge b) a) ∧
    (PnSet.partCmp a b = some .gt ↔
      PnSet.eqv (a.merge b) a ∧ ¬ PnSet.eqv (a.merge b) b) := by
  have HB : PnSet.gtFlag a b = false ↔ PnSet.eqv (a.merge b) b :=
    PnSet.gtFlag_eq_false.trans PnSet.outerDom_iff_merge
  have HA : PnSet.gtFlag b a = false ↔ PnSet.eqv (a.merge b) a := by
    refine (PnSet.gtFlag_eq_false.trans PnSet.outerDom_iff_merge).trans ?_
    unfold PnSet.eqv
    rw [PnSet.merge_elements_comm]
  rw [PnSet.pns_partCmp_eq]
  cases hab : PnSet.gtFlag a b <;> cases hba : PnSet.gtFlag b a <;>
    rw [hab] at HB <;> rw [hba] at HA <;>
    refine ⟨?_, ?_, ?_, ?_⟩ <;> simp_all

theorem GSet.gset_merge_self (a : GSet) : a.merge a = a :=
  GSet.gset_eq_of_elements (SMap.mergeWith_idem (fun _ => rfl) a.elements)

theorem GSet.gset_partCmp_characterization (a b : GSet) :
    (GSet.partCmp a b = none ↔ ¬ (a.merge b = a) ∧ ¬ (a.merge b = b)) ∧
    (GSet.partCmp a b = some .eq ↔ (a.merge b = a) ∧ (a.merge b = b)) ∧
    (GSet.partCmp a b = some .lt ↔ (a.merge b = b) ∧ ¬ (a.merge b = a)) ∧
    (GSet.partCmp a b = some .gt ↔ (a.merge b = a) ∧ ¬ (a.merge b = b)) := by
  have HB : GSet.isSubset a b = true ↔ a.merge b = b := GSet.subset_iff_merge
  have HA : GSet.isSubset b a = true ↔ a.merge b = a := by
    rw [GSet.subset_iff_merge, GSet.gset_merge_comm]
  unfold GSet.partCmp
  by_cases heq : a.elements = b.elements
  · have hab : a = b := GSet.gset_eq_of_elements heq
    subst hab
    rw [if_pos rfl]
    have hm : a.merge a = a := GSet.gset_merge_self a
    refine ⟨?_, ?_, ?_, ?_⟩ <;> simp [hm]
  · rw [if_neg heq]
    have hne : ¬ (a = b) := fun h => heq (by rw [h])
    by_cases hsub : GSet.isSubset a b = true
    · rw [if_pos hsub]
      have hmb : a.merge b = b := HB.mp hsub
      have hma : ¬ (a.merge b = a) := fun h => hne (by rw [← hmb, h])
      have hba : ¬ b = a := fun h => hne h.symm
      refine ⟨?_, ?_, ?_, ?_⟩ <;> simp [hmb, hma, hba]
    · rw [if_neg hsub]
      have hmb : ¬ (a.merge b = b) := fun h => hsub (HB.mpr h)
      by_cases hsup : GSet.isSubset b a = true
      · rw [if_pos hsup]
        have hma : a.merge b = a := HA.mp hsup
        refine ⟨?_, ?_, ?_, ?_⟩ <;> simp [hma, hmb, hne]
      · rw [if_neg hsup]
        have hma : ¬ (a.merge b = a) := fun h => hsup (HA.mpr h)
        refine ⟨?_, ?_, ?_, ?_⟩ <;> simp [hma, hmb]

theorem LwwRegister.reg_partCmp_characterization {T : Type} (a b : LwwRegister T) :
    (LwwRegister.partCmp a b = none ↔
      ¬ LwwRegister.eqv (a.merge b) a ∧ ¬ LwwRegister.eqv (a.merge b) b) ∧
    (LwwRegister.partCmp a b = some .eq ↔
      LwwRegister.eqv (a.merge b) a ∧ LwwRegister.eqv (a.merge b) b) ∧
    (LwwRegister.partCmp a b = some .lt ↔
      LwwRegister.eqv (a.merge b) b ∧ ¬ LwwRegister.eqv (a.merge b) a) ∧
    (LwwRegister.partCmp a b = some .gt ↔
      LwwRegister.eqv (a.merge b) a ∧ ¬ LwwRegister.eqv (a.merge b) b) := by
  have HA := LwwRegister.eqv_merge_left a b
  have HB := LwwRegister.eqv_merge_right a b
  unfold LwwRegister.partCmp
  cases h : compare a.transactionId b.transactionId with
  | lt =>
    have := (Nat.compare_eq_lt ..).mp h
    refine ⟨?_, ?_, ?_, ?_⟩ <;> simp [HA, HB] <;> omega
  | eq =>
    have := (Nat.compare_eq_eq ..).mp h
    refine ⟨?_, ?_, ?_, ?_⟩ <;> simp [HA, HB] <;> omega
  | gt =>
    have := (Nat.compare_eq_gt ..).mp h
    refine ⟨?_, ?_, ?_, ?_⟩ <;> simp [HA, HB] <;> omega

theorem GCounter.gc_apply_lookup (c : GCounter) (op : GCounterIncrement) :
    (c.apply op).counts.lookup op.replicaId
      = some ((c.counts.lookup op.replicaId).getD 0 + op.amount) := by
  show (c.counts.insertWith _ _ _).lookup op.replicaId = _
  rw [SMap.lookup_insertWith, if_pos rfl]
  cases c.counts.lookup op.replicaId <;> simp

theorem PnCounter.pc_apply_lookup (c : PnCounter) (op : PnCounterIncrement) :
    (c.apply op).counts.lookup op.replicaId
      = some (((c.counts.lookup op.replicaId).getD (0, 0)).1
            + (if 0 < op.amount then op.amount.toNat else 0),
          ((c.counts.lookup op.replicaId).getD (0, 0)).2
            + (if 0 < op.amount then 0 else op.amount.natAbs)) := by
  show (c.counts.insertWith _ op.replicaId _).lookup op.replicaId = _
  rw [SMap.lookup_insertWith, if_pos rfl]
  by_cases ha : 0 < op.amount <;>
    cases c.counts.lookup op.replicaId <;> simp [ha]

end CrdtSpec

namespace CrdtSpec

/-- C9: starting from fresh `PnSet`s with replica ids 0 and 1, after the local
set inserts `1` and the remote set inserts `1`, inserts `2` and removes `1`,
merging the remote set into the local one leaves both `1` and `2` members and
`len() = 2`: the remote decrement only cancels the remote insertion, not the
local one. -/
theorem claim_C9_pnset_merge_scenario :
    ((((PnSet.new 0).insert 1).1.merge
        (((((PnSet.new 1).insert 1).1.insert 2).1.remove 1).1)).contains 1
      = true) ∧
    ((((PnSet.new 0).insert 1).1.merge
        (((((PnSet.new 1).insert 1).1.insert 2).1.remove 1).1)).contains 2
      = true) ∧
    ((((PnSet.new 0).insert 1).1.merge
        (((((PnSet.new 1).insert 1).1.insert 2).1.remove 1).1)).len = 2) := by
  decide

/-- C1 counterexample: the operation returned by `increment(1)` on a fresh
`GCounter` applied twice to a fresh `GCounter` yields count 2, not 1 —
`GCounter::apply` adds the carried amount on every application, so it is not
idempotent. -/
theorem claim_C1_counterexample :
    ((GCounter.new 0).increment 1).2 = ⟨0, 1⟩ ∧
    ¬ GCounter.eqv
        (((GCounter.new 0).apply (((GCounter.new 0).increment 1).2)).apply
          (((GCounter.new 0).increment 1).2))
        ((GCounter.new 0).apply (((GCounter.new 0).increment 1).2)) := by
  constructor
  · rfl
  · decide

/-- C2 counterexample: on a `GCounter` whose replica-0 entry is 2,
`increment(3)` returns an operation carrying the delta 3 while the resulting
absolute count is 5; and applying the operation `{replica 0, amount 3}` to a
counter whose entry is 5 yields 8, not `max(5, 3) = 5`. -/
theorem claim_C2_counterexample :
    ((((GCounter.new 0).increment 2).1.increment 3).2.amount = 3 ∧
      (((GCounter.new 0).increment 2).1.increment 3).1.counts.lookup 0
        = some 5 ∧
      ¬ (((GCounter.new 0).increment 2).1.increment 3).2.amount = 5) ∧
    ((((GCounter.new 0).increment 5).1.apply ⟨0, 3⟩).counts.lookup 0
        = some 8 ∧
      ¬ (((GCounter.new 0).increment 5).1.apply ⟨0, 3⟩).counts.lookup 0
        = some (max 5 3)) := by
  decide

/-- C3: for every CRDT type of the library (and for the underlying `Pn`
primitive), `merge` is idempotent, commutative and associative under the
type's own equality — structural equality of the replicated state, ignoring
the local replica id (and, for `LwwRegister`, comparing only the transaction
id, exactly as the code's `PartialEq` does). -/
theorem claim_C3_merge_semilattice :
    (∀ x y z : Pn, x.merge x = x ∧ x.merge y = y.merge x ∧
      (x.merge y).merge z = x.merge (y.merge z)) ∧
    (∀ a b c : GCounter, GCounter.eqv (a.merge a) a ∧
      GCounter.eqv (a.merge b) (b.merge a) ∧
      GCounter.eqv ((a.merge b).merge c) (a.merge (b.merge c))) ∧
    (∀ a b c : PnCounter, PnCounter.eqv (a.merge a) a ∧
      PnCounter.eqv (a.merge b) (b.merge a) ∧
      PnCounter.eqv ((a.merge b).merge c) (a.merge (b.merge c))) ∧
    (∀ (T : Type) (a b c : LwwRegister T), LwwRegister.eqv (a.merge a) a ∧
      LwwRegister.eqv (a.merge b) (b.merge a) ∧
      LwwRegister.eqv ((a.merge b).merge c) (a.merge (b.merge c))) ∧
    (∀ a b c : GSet, a.merge a = a ∧ a.merge b = b.merge a ∧
      (a.merge b).merge c = a.merge (b.merge c)) ∧
    (∀ a b c : TpSet, a.merge a = a ∧ a.merge b = b.merge a ∧
      (a.merge b).merge c = a.merge (b.merge c)) ∧
    (∀ a b c : LwwSet, a.merge a = a ∧ a.merge b = b.merge a ∧
      (a.merge b).merge c = a.merge (b.merge c)) ∧
    (∀ a b c : PnSet, PnSet.eqv (a.merge a) a ∧
      PnSet.eqv (a.merge b) (b.merge a) ∧
      PnSet.eqv ((a.merge b).merge c) (a.merge (b.merge c))) := by
  refine ⟨?_, ?_, ?_, ?_, ?_, ?_, ?_, ?_⟩
  · intro x y z
    exact ⟨Pn.merge_idem x, Pn.merge_comm x y, Pn.merge_assoc x y z⟩
  · intro a b c
    refine ⟨?_, ?_, ?_⟩
    · exact SMap.mergeWith_idem (fun x => Nat.max_self x) a.counts
    · exact SMap.mergeWith_comm (fun x y => Nat.max_comm x y) a.counts b.counts
    · exact SMap.mergeWith_assoc (fun x y z => Nat.max_assoc x y z)
        a.counts b.counts c.counts
  · intro a b c
    refine ⟨?_, ?_, ?_⟩
    · exact SMap.mergeWith_idem (fun x => by simp) a.counts
    · exact SMap.mergeWith_comm
        (fun x y => by simp [Nat.max_comm x.1 y.1, Nat.max_comm x.2 y.2])
        a.counts b.counts
    · exact SMap.mergeWith_assoc
        (fun x y z => by simp [Nat.max_assoc]) a.counts b.counts c.counts
  · intro T a b c
    refine ⟨?_, ?_, ?_⟩
    · rw [LwwRegister.reg_merge_self]
      rfl
    · show (a.merge b).transactionId = (b.merge a).transactionId
      rw [LwwRegister.merge_tid, LwwRegister.merge_tid, Nat.max_comm]
    · show ((a.merge b).merge c).transactionId
        = (a.merge (b.merge c)).transactionId
      rw [LwwRegister.merge_tid, LwwRegister.merge_tid,
        LwwRegister.merge_tid, LwwRegister.merge_tid, Nat.max_assoc]
  · intro a b c
    refine ⟨?_, ?_, ?_⟩
    · exact GSet.gset_eq_of_elements
        (SMap.mergeWith_idem (fun x => rfl) a.elements)
    · exact GSet.gset_eq_of_elements
        (SMap.mergeWith_comm (fun x y => by cases x; cases y; rfl)
          a.elements b.elements)
    · exact GSet.gset_eq_of_elements
        (SMap.mergeWith_assoc (fun x y z => rfl)
          a.elements b.elements c.elements)
  · intro a b c
    refine ⟨?_, ?_, ?_⟩
    · exact TpSet.tp_eq_of_elements
        (SMap.mergeWith_idem (fun x => by cases x <;> rfl) a.elements)
    · exact TpSet.tp_eq_of_elements
        (SMap.mergeWith_comm (fun x y => by cases x <;> cases y <;> rfl)
          a.elements b.elements)
    · exact TpSet.tp_eq_of_elements
        (SMap.mergeWith_assoc
          (fun x y z => by cases x <;> cases y <;> cases z <;> rfl)
          a.elements b.elements c.elements)
  · intro a b c
    refine ⟨?_, ?_, ?_⟩
    · rw [LwwSet.merge_eq_mergeWith]
      exact LwwSet.lww_eq_of_elements
        (SMap.mergeWith_idem lwwCombine_self a.elements)
    · rw [LwwSet.merge_eq_mergeWith, LwwSet.merge_eq_mergeWith]
      exact LwwSet.lww_eq_of_elements
        (SMap.mergeWith_comm lwwCombine_comm a.elements b.elements)
    · rw [LwwSet.merge_eq_mergeWith, LwwSet.merge_eq_mergeWith,
        LwwSet.merge_eq_mergeWith, LwwSet.merge_eq_mergeWith]
      exact LwwSet.lww_eq_of_elements
        (SMap.mergeWith_assoc lwwCombine_assoc
          a.elements b.elements c.elements)
  · intro a b c
    refine ⟨?_, ?_, ?_⟩
    · exact SMap.mergeWith_idem
        (fun x => SMap.mergeWith_idem Pn.merge_idem x) a.elements
    · exact SMap.mergeWith_comm
        (fun x y => SMap.mergeWith_comm Pn.merge_comm x y)
        a.elements b.elements
    · exact SMap.mergeWith_assoc
        (fun x y z => SMap.mergeWith_assoc Pn.merge_assoc x y z)
        a.elements b.elements c.elements

/-- C4 counterexample: for the `LwwSet`s `a = {1 ↦ (present, 0)}` and
`b = {1 ↦ (removed, 0)}`, the code reports `a <= b` although
`merge(a, b) = a ≠ b`, and `merge(a, b) >= b` fails; for the `TpSet`s
`a = {1 present}` and `b = {2 present}`, `a <= b` holds although
`merge(a, b) ≠ b`. -/
theorem claim_C4_counterexample :
    ((LwwSet.new.insert 1 0).1.le (LwwSet.new.remove 1 0).1 = true ∧
      ¬ ((LwwSet.new.insert 1 0).1.merge (LwwSet.new.remove 1 0).1
          = (LwwSet.new.remove 1 0).1) ∧
      ((LwwSet.new.insert 1 0).1.merge (LwwSet.new.remove 1 0).1).ge
        (LwwSet.new.remove 1 0).1 = false) ∧
    ((TpSet.new.insert 1).1.le (TpSet.new.insert 2).1 = true ∧
      ¬ ((TpSet.new.insert 1).1.merge (TpSet.new.insert 2).1
          = (TpSet.new.insert 2).1)) := by
  decide

/-- C4 (amended): the join law — `a <= b` iff `merge(a,b) == b`, and
`merge(a,b) >= a`, `merge(a,b) >= b` — holds for `GCounter`, `PnCounter`,
`LwwRegister`, `GSet` and `PnSet`; it fails for `TpSet` (the iff) and for
`LwwSet` (both the iff and the join inequalities), as the counterexample
shows. -/
theorem claim_C4_join_law_amended :
    (∀ a b : GCounter,
      (GCounter.le a b = true ↔ GCounter.eqv (a.merge b) b) ∧
      GCounter.ge (a.merge b) a = true ∧
      GCounter.ge (a.merge b) b = true) ∧
    (∀ a b : PnCounter,
      (PnCounter.le a b = true ↔ PnCounter.eqv (a.merge b) b) ∧
      PnCounter.ge (a.merge b) a = true ∧
      PnCounter.ge (a.merge b) b = true) ∧
    (∀ (T : Type) (a b : LwwRegister T),
      (LwwRegister.le a b = true ↔ LwwRegister.eqv (a.merge b) b) ∧
      LwwRegister.ge (a.merge b) a = true ∧
      LwwRegister.ge (a.merge b) b = true) ∧
    (∀ a b : GSet,
      (GSet.le a b = true ↔ a.merge b = b) ∧
      GSet.ge (a.merge b) a = true ∧
      GSet.ge (a.merge b) b = true) ∧
    (∀ a b : PnSet,
      (PnSet.le a b = true ↔ PnSet.eqv (a.merge b) b) ∧
      PnSet.ge (a.merge b) a = true ∧
      PnSet.ge (a.merge b) b = true) := by
  refine ⟨?_, ?_, ?_, ?_, ?_⟩
  · intro a b
    refine ⟨?_, ?_, ?_⟩
    · rw [GCounter.gc_le_eq]
      constructor
      · intro h
        refine (GCounter.gc_aGtB_eq_false.trans GCounter.gc_dom_iff_merge).mp ?_
        cases hab : GCounter.aGtB a b
        · rfl
        · rw [hab] at h
          exact Bool.noConfusion h
      · intro h
        rw [GCounter.gc_aGtB_eq_false.mpr (GCounter.gc_dom_iff_merge.mpr h)]
        rfl
    · rw [GCounter.gc_ge_eq,
        GCounter.gc_aGtB_eq_false.mpr (GCounter.gc_dom_merge_left a b)]
      rfl
    · rw [GCounter.gc_ge_eq,
        GCounter.gc_aGtB_eq_false.mpr (GCounter.gc_dom_merge_right a b)]
      rfl
  · intro a b
    refine ⟨?_, ?_, ?_⟩
    · rw [PnCounter.pc_le_eq]
      constructor
      · intro h
        refine (PnCounter.pc_aGtB_eq_false.trans PnCounter.pc_dom_iff_merge).mp ?_
        cases hab : PnCounter.aGtB a b
        · rfl
        · rw [hab] at h
          exact Bool.noConfusion h
      · intro h
        rw [PnCounter.pc_aGtB_eq_false.mpr (PnCounter.pc_dom_iff_merge.mpr h)]
        rfl
    · rw [PnCounter.pc_ge_eq,
        PnCounter.pc_aGtB_eq_false.mpr (PnCounter.pc_dom_merge_left a b)]
      rfl
    · rw [PnCounter.pc_ge_eq,
        PnCounter.pc_aGtB_eq_false.mpr (PnCounter.pc_dom_merge_right a b)]
      rfl
  · intro T a b
    refine ⟨?_, ?_, ?_⟩
    · rw [LwwRegister.reg_le_iff, LwwRegister.eqv_merge_right]
    · rw [LwwRegister.reg_ge_iff, LwwRegister.merge_tid]
      omega
    · rw [LwwRegister.reg_ge_iff, LwwRegister.merge_tid]
      omega
  · intro a b
    refine ⟨?_, ?_, ?_⟩
    · rw [GSet.gset_le_iff, GSet.subset_iff_merge]
    · rw [GSet.gset_ge_iff]
      exact GSet.subset_merge_left a b
    · rw [GSet.gset_ge_iff]
      exact GSet.subset_merge_right a b
  · intro a b
    refine ⟨?_, ?_, ?_⟩
    · rw [PnSet.pns_le_eq]
      constructor
      · intro h
        refine (PnSet.gtFlag_eq_false.trans PnSet.outerDom_iff_merge).mp ?_
        cases hab : PnSet.gtFlag a b
        · rfl
        · rw [hab] at h
          exact Bool.noConfusion h
      · intro h
        rw [PnSet.gtFlag_eq_false.mpr (PnSet.outerDom_iff_merge.mpr h)]
        rfl
    · rw [PnSet.pns_ge_eq,
        PnSet.gtFlag_eq_false.mpr (PnSet.outerDom_merge_left a b)]
      rfl
    · rw [PnSet.pns_ge_eq,
        PnSet.gtFlag_eq_false.mpr (PnSet.outerDom_merge_right a b)]
      rfl

/-- C5 (amended): for `GCounter`, `PnCounter`, `LwwRegister`, `GSet` and
`PnSet`, `partial_cmp` returns `None` exactly when the two states have
diverged (the merge differs from both inputs) and otherwise `Some` of the
ordering that agrees with `merge`; for `TpSet` and `LwwSet` this fails —
diverged states can compare `Some(Less)` — as the counterexample shows. -/
theorem claim_C5_partial_cmp_divergence_amended :
    (∀ a b : GCounter,
      (GCounter.partCmp a b = none ↔
        ¬ GCounter.eqv (a.merge b) a ∧ ¬ GCounter.eqv (a.merge b) b) ∧
      (GCounter.partCmp a b = some .eq ↔
        GCounter.eqv (a.merge b) a ∧ GCounter.eqv (a.merge b) b) ∧
      (GCounter.partCmp a b = some .lt ↔
        GCounter.eqv (a.merge b) b ∧ ¬ GCounter.eqv (a.merge b) a) ∧
      (GCounter.partCmp a b = some .gt ↔
        GCounter.eqv (a.merge b) a ∧ ¬ GCounter.eqv (a.merge b) b)) ∧
    (∀ a b : PnCounter,
      (PnCounter.partCmp a b = none ↔
        ¬ PnCounter.eqv (a.merge b) a ∧ ¬ PnCounter.eqv (a.merge b) b) ∧
      (PnCounter.partCmp a b = some .eq ↔
        PnCounter.eqv (a.merge b) a ∧ PnCounter.eqv (a.merge b) b) ∧
      (PnCounter.partCmp a b = some .lt ↔
        PnCounter.eqv (a.merge b) b ∧ ¬ PnCounter.eqv (a.merge b) a) ∧
      (PnCounter.partCmp a b = some .gt ↔
        PnCounter.eqv (a.merge b) a ∧ ¬ PnCounter.eqv (a.merge b) b)) ∧
    (∀ (T : Type) (a b : LwwRegister T),
      (LwwRegister.partCmp a b = none ↔
        ¬ LwwRegister.eqv (a.merge b) a ∧ ¬ LwwRegister.eqv (a.merge b) b) ∧
      (LwwRegister.partCmp a b = some .eq ↔
        LwwRegister.eqv (a.merge b) a ∧ LwwRegister.eqv (a.merge b) b) ∧
      (LwwRegister.partCmp a b = some .lt ↔
        LwwRegister.eqv (a.merge b) b ∧ ¬ LwwRegister.eqv (a.merge b) a) ∧
      (LwwRegister.partCmp a b = some .gt ↔
        LwwRegister.eqv (a.merge b) a ∧ ¬ LwwRegister.eqv (a.merge b) b)) ∧
    (∀ a b : GSet,
      (GSet.partCmp a b = none ↔
        ¬ (a.merge b = a) ∧ ¬ (a.merge b = b)) ∧
      (GSet.partCmp a b = some .eq ↔ (a.merge b = a) ∧ (a.merge b = b)) ∧
      (GSet.partCmp a b = some .lt ↔ (a.merge b = b) ∧ ¬ (a.merge b = a)) ∧
      (GSet.partCmp a b = some .gt ↔ (a.merge b = a) ∧ ¬ (a.merge b = b))) ∧
    (∀ a b : PnSet,
      (PnSet.partCmp a b = none ↔
        ¬ PnSet.eqv (a.merge b) a ∧ ¬ PnSet.eqv (a.merge b) b) ∧
      (PnSet.partCmp a b = some .eq ↔
        PnSet.eqv (a.merge b) a ∧ PnSet.eqv (a.merge b) b) ∧
      (PnSet.partCmp a b = some .lt ↔
        PnSet.eqv (a.merge b) b ∧ ¬ PnSet.eqv (a.merge b) a) ∧
      (PnSet.partCmp a b = some .gt ↔
        PnSet.eqv (a.merge b) a ∧ ¬ PnSet.eqv (a.merge b) b)) :=
  ⟨fun a b => GCounter.gc_partCmp_characterization a b,
    fun a b => PnCounter.pc_partCmp_characterization a b,
    fun _ a b => LwwRegister.reg_partCmp_characterization a b,
    fun a b => GSet.gset_partCmp_characterization a b,
    fun a b => PnSet.pns_partCmp_characterization a b⟩

/-- C6 (amended): `a <= b` for `GCounter` holds iff every replica with an
entry in `a.counts` also has an entry in `b.counts` that is at least as
large.  A replica missing from `b` is never treated as having count 0: an
explicit 0 entry strictly dominates a missing one, as the counterexample
shows. -/
theorem claim_C6_gcounter_order_amended (a b : GCounter) :
    GCounter.le a b = true ↔
      ∀ p ∈ a.counts.entries, ∃ bCount,
        b.counts.lookup p.1 = some bCount ∧ p.2 ≤ bCount := by
  rw [GCounter.gc_le_eq]
  constructor
  · intro h
    refine GCounter.gc_aGtB_eq_false.mp ?_
    cases hab : GCounter.aGtB a b
    · rfl
    · rw [hab] at h
      exact Bool.noConfusion h
  · intro h
    rw [GCounter.gc_aGtB_eq_false.mpr h]
    rfl

/-- C5 counterexample: the `LwwSet`s `a = {1 ↦ (present, 0)}` and
`b = {1 ↦ (removed, 0), 2 ↦ (present, 0)}` have diverged — `merge(a, b)`
differs from both — yet `partial_cmp` returns `Some(Less)`, not `None`; the
diverged `TpSet`s `{3 present}` and `{4 present}` likewise compare
`Some(Less)`. -/
theorem claim_C5_counterexample :
    (¬ ((LwwSet.new.insert 1 0).1.merge
          ((LwwSet.new.remove 1 0).1.insert 2 0).1
        = (LwwSet.new.insert 1 0).1) ∧
      ¬ ((LwwSet.new.insert 1 0).1.merge
          ((LwwSet.new.remove 1 0).1.insert 2 0).1
        = ((LwwSet.new.remove 1 0).1.insert 2 0).1) ∧
      (LwwSet.new.insert 1 0).1.partCmp
          ((LwwSet.new.remove 1 0).1.insert 2 0).1
        = some Ordering.lt) ∧
    (¬ ((TpSet.new.insert 3).1.merge (TpSet.new.insert 4).1
        = (TpSet.new.insert 3).1) ∧
      ¬ ((TpSet.new.insert 3).1.merge (TpSet.new.insert 4).1
        = (TpSet.new.insert 4).1) ∧
      (TpSet.new.insert 3).1.partCmp (TpSet.new.insert 4).1
        = some Ordering.lt) := by
  decide

/-- C6 counterexample: for `a = {replica 0 ↦ 0}` (a fresh counter after
`increment(0)`) and `b` the empty counter, every entry of `a` is bounded by
`b`'s entry-or-zero, so the claimed order would make `a <= b` hold, but the
code compares entry counts first and reports `a <= b` false
(`partial_cmp = Some(Greater)`). -/
theorem claim_C6_counterexample :
    (∀ p ∈ (((GCounter.new 0).increment 0).1).counts.entries,
        p.2 ≤ (((GCounter.new 1).counts.lookup p.1).getD 0)) ∧
    ((GCounter.new 0).increment 0).1.le (GCounter.new 1) = false := by
  decide

/-- C7: for an `LwwSet` storing `(present, t)` for element `e`,
`insert(e, tid)` succeeds (returning an operation and storing `(true, tid)`)
exactly when `tid ≥ t`, while `remove(e, tid)` succeeds (storing
`(false, tid)`) exactly when `tid > t`; consequently, after an insert at `tid`
a remove at the same `tid` is a no-op and the element stays present. -/
theorem claim_C7_lwwset_tie_breaking (s : LwwSet) (e : Nat) (present : Bool)
    (t : Nat) (h : s.elements.lookup e = some (present, t)) (tid : Nat) :
    ((s.insert e tid).2.isSome = true ↔ t ≤ tid) ∧
    (t ≤ tid → (s.insert e tid).1.elements.lookup e = some (true, tid)) ∧
    (¬ t ≤ tid → (s.insert e tid).1 = s) ∧
    ((s.remove e tid).2.isSome = true ↔ t < tid) ∧
    (t < tid → (s.remove e tid).1.elements.lookup e = some (false, tid)) ∧
    (¬ t < tid → (s.remove e tid).1 = s) ∧
    (t ≤ tid →
      (s.insert e tid).1.remove e tid = ((s.insert e tid).1, none) ∧
      (s.insert e tid).1.contains e = true) := by
  have hins : t ≤ tid →
      (s.insert e tid).1.elements.lookup e = some (true, tid) := by
    intro hle
    simp only [LwwSet.insert, h, if_pos hle]
    rw [SMap.lookup_insertWith, if_pos rfl, h]
  refine ⟨?_, hins, ?_, ?_, ?_, ?_, ?_⟩
  · simp only [LwwSet.insert, h]
    by_cases hle : t ≤ tid
    · simp [if_pos hle, hle]
    · simp [if_neg hle, hle]
  · intro hle
    simp only [LwwSet.insert, h, if_neg hle]
  · simp only [LwwSet.remove, h]
    by_cases hlt : t < tid
    · simp [if_pos hlt, hlt]
    · simp [if_neg hlt, hlt]
  · intro hlt
    simp only [LwwSet.remove, h, if_pos hlt]
    rw [SMap.lookup_insertWith, if_pos rfl, h]
  · intro hlt
    simp only [LwwSet.remove, h, if_neg hlt]
  · intro hle
    have hlook := hins hle
    constructor
    · simp only [LwwSet.remove, hlook]
      rw [if_neg (by omega)]
    · simp [LwwSet.contains, hlook]

/-- C7 witness: instantiating the tie-breaking theorem at the concrete set
`{5 ↦ (present, 3)}` with `tid = 3`. -/
theorem claim_C7_witness :
    ((LwwSet.new.insert 5 3).1.elements.lookup 5 = some (true, 3)) ∧
    ((((LwwSet.new.insert 5 3).1.insert 5 3).2.isSome = true ↔ 3 ≤ 3) ∧
      (3 ≤ 3 → ((LwwSet.new.insert 5 3).1.insert 5 3).1.elements.lookup 5
        = some (true, 3)) ∧
      (¬ 3 ≤ 3 → ((LwwSet.new.insert 5 3).1.insert 5 3).1
        = (LwwSet.new.insert 5 3).1) ∧
      ((((LwwSet.new.insert 5 3).1.remove 5 3).2.isSome = true) ↔ 3 < 3) ∧
      (3 < 3 → ((LwwSet.new.insert 5 3).1.remove 5 3).1.elements.lookup 5
        = some (false, 3)) ∧
      (¬ 3 < 3 → ((LwwSet.new.insert 5 3).1.remove 5 3).1
        = (LwwSet.new.insert 5 3).1) ∧
      (3 ≤ 3 →
        ((LwwSet.new.insert 5 3).1.insert 5 3).1.remove 5 3
          = (((LwwSet.new.insert 5 3).1.insert 5 3).1, none) ∧
        ((LwwSet.new.insert 5 3).1.insert 5 3).1.contains 5 = true)) :=
  ⟨by decide,
    claim_C7_lwwset_tie_breaking (LwwSet.new.insert 5 3).1 5 true 3
      (by decide) 3⟩

/-- C8: once a `TpSet` entry for `e` is `false` (removed), every subsequent
local `insert` or `remove`, every applied operation, and every merge — even
with a set in which `e` is present — leaves the entry `false`, and
`contains(e)` stays `false`. -/
theorem claim_C8_tpset_removed_forever (s : TpSet) (e : Nat)
    (h : s.elements.lookup e = some false) :
    s.contains e = false ∧
    (∀ x, (s.insert x).1.elements.lookup e = some false) ∧
    (∀ x, (s.remove x).1.elements.lookup e = some false) ∧
    (∀ op, (s.apply op).elements.lookup e = some false) ∧
    (∀ t, (s.merge t).elements.lookup e = some false) ∧
    (∀ x, (s.insert x).1.contains e = false) ∧
    (∀ x, (s.remove x).1.contains e = false) ∧
    (∀ op, (s.apply op).contains e = false) ∧
    (∀ t, (s.merge t).contains e = false) := by
  have hins : ∀ x, (s.insert x).1.elements.lookup e = some false := by
    intro x
    unfold TpSet.insert
    cases hx : s.elements.lookup x with
    | some b => exact h
    | none =>
      simp only
      rw [SMap.lookup_insertWith]
      by_cases hex : e = x
      · subst hex
        rw [h] at hx
        exact Option.noConfusion hx
      · rw [if_neg hex]
        exact h
  have hrem : ∀ x, (s.remove x).1.elements.lookup e = some false := by
    intro x
    unfold TpSet.remove
    cases hx : s.elements.lookup x with
    | none =>
      simp only
      rw [SMap.lookup_insertWith]
      by_cases hex : e = x
      · subst hex
        rw [h] at hx
        exact Option.noConfusion hx
      · rw [if_neg hex]
        exact h
    | some b =>
      cases b with
      | true =>
        simp only
        rw [SMap.lookup_insertWith]
        by_cases hex : e = x
        · subst hex
          rw [h] at hx
          cases hx
        · rw [if_neg hex]
          exact h
      | false => exact h
  have happ : ∀ op, (s.apply op).elements.lookup e = some false := by
    intro op
    cases op with
    | Insert x => exact hins x
    | Remove x => exact hrem x
  have hmerge : ∀ t, (s.merge t).elements.lookup e = some false := by
    intro t
    show (s.elements.mergeWith _ t.elements).lookup e = some false
    rw [SMap.lookup_mergeWith, h]
    cases t.elements.lookup e with
    | none => rfl
    | some inc => cases inc <;> rfl
  exact ⟨TpSet.contains_of_lookup_false h, hins, hrem, happ, hmerge,
    fun x => TpSet.contains_of_lookup_false (hins x),
    fun x => TpSet.contains_of_lookup_false (hrem x),
    fun op => TpSet.contains_of_lookup_false (happ op),
    fun t => TpSet.contains_of_lookup_false (hmerge t)⟩

/-- C8 witness: instantiating the removal-permanence theorem at the concrete
set `{7 ↦ removed}` and checking the merge with `{7 present}`. -/
theorem claim_C8_witness :
    ((TpSet.new.remove 7).1.elements.lookup 7 = some false) ∧
    (∀ t, ((TpSet.new.remove 7).1.merge t).contains 7 = false) ∧
    ((TpSet.new.remove 7).1.merge (TpSet.new.insert 7).1).contains 7
      = false := by
  have hmain := claim_C8_tpset_removed_forever (TpSet.new.remove 7).1 7
    (by decide)
  exact ⟨by decide, hmain.2.2.2.2.2.2.2.2,
    hmain.2.2.2.2.2.2.2.2 (TpSet.new.insert 7).1⟩

/-- C10: removing a never-seen element from an `LwwSet` succeeds for any
`tid`: it returns `Some(Remove(e, tid))`, stores `(false, tid)`, leaves
`contains(e)` false and `len()` unchanged, and a later `insert(e, tid2)` with
`tid2 < tid` is a no-op returning `None`. -/
theorem claim_C10_lwwset_remove_absent (s : LwwSet) (e tid : Nat)
    (h : s.elements.lookup e = none) :
    (s.remove e tid).2 = some (.Remove e tid) ∧
    (s.remove e tid).1.elements.lookup e = some (false, tid) ∧
    (s.remove e tid).1.contains e = false ∧
    (s.remove e tid).1.len = s.len ∧
    (∀ tid2, tid2 < tid →
      (s.remove e tid).1.insert e tid2 = ((s.remove e tid).1, none)) := by
  have hstate : (s.remove e tid).1.elements
      = s.elements.insertWith (fun _ incoming => incoming) e (false, tid) := by
    simp [LwwSet.remove, h]
  have hlook : (s.remove e tid).1.elements.lookup e = some (false, tid) := by
    rw [hstate, SMap.lookup_insertWith, if_pos rfl, h]
  refine ⟨by simp [LwwSet.remove, h], hlook, ?_, ?_, ?_⟩
  · simp [LwwSet.contains, hlook]
  · show ((s.remove e tid).1.elements.entries.filter _).length = _
    rw [hstate]
    show ((insertWithL _ e (false, tid) s.elements.entries).filter _).length
      = _
    rw [filter_insertWithL_of_none h rfl]
    rfl
  · intro tid2 hlt
    simp only [LwwSet.insert, hlook]
    rw [if_neg (by omega)]

/-- C1 (amended): applying the same operation twice equals applying it once
for `LwwRegister`, `GSet`, `TpSet`, `LwwSet` and `PnSet`; but `GCounter` and
`PnCounter` accumulate the operation's carried delta on every application —
the entry for the operation's replica grows by the amount each time — so for
them a second application changes the state whenever the amount is nonzero. -/
theorem claim_C1_apply_idempotent_amended :
    (∀ (T : Type) (r op : LwwRegister T), (r.apply op).apply op = r.apply op) ∧
    (∀ (s : GSet) (op : GSetInsert), (s.apply op).apply op = s.apply op) ∧
    (∀ (s : TpSet) (op : TpSetOp), (s.apply op).apply op = s.apply op) ∧
    (∀ (s : LwwSet) (op : LwwSetOp), (s.apply op).apply op = s.apply op) ∧
    (∀ (s : PnSet) (op : PnSetOp), (s.apply op).apply op = s.apply op) ∧
    (∀ (c : GCounter) (op : GCounterIncrement),
      ((c.apply op).apply op).counts.lookup op.replicaId
        = some ((c.counts.lookup op.replicaId).getD 0
            + op.amount + op.amount)) ∧
    (∀ (c : PnCounter) (op : PnCounterIncrement),
      ((c.apply op).apply op).counts.lookup op.replicaId
        = some (((c.counts.lookup op.replicaId).getD (0, 0)).1
              + (if 0 < op.amount then op.amount.toNat else 0)
              + (if 0 < op.amount then op.amount.toNat else 0),
            ((c.counts.lookup op.replicaId).getD (0, 0)).2
              + (if 0 < op.amount then 0 else op.amount.natAbs)
              + (if 0 < op.amount then 0 else op.amount.natAbs))) := by
  refine ⟨fun T r op => LwwRegister.reg_apply_apply r op,
    fun s op => GSet.gset_apply_apply s op,
    fun s op => TpSet.tp_apply_apply s op,
    fun s op => LwwSet.lww_apply_apply s op,
    fun s op => PnSet.pns_apply_apply s op, ?_, ?_⟩
  · intro c op
    rw [GCounter.gc_apply_lookup, GCounter.gc_apply_lookup]
    simp [Nat.add_assoc]
  · intro c op
    rw [PnCounter.pc_apply_lookup, PnCounter.pc_apply_lookup]
    simp

/-- C2 (amended): `GCounter::increment(a)` returns an operation carrying the
local replica id and the delta `a` (not the resulting absolute count), after
applying it locally; and `GCounter::apply(op)` sets the entry for
`op.replica_id` to the existing count (0 when missing) plus `op.amount`, not
to a maximum. -/
theorem claim_C2_gcounter_delta_semantics :
    (∀ (c : GCounter) (amount : Nat),
      (c.increment amount).2 = ⟨c.replicaId, amount⟩ ∧
      (c.increment amount).1 = c.apply ⟨c.replicaId, amount⟩) ∧
    (∀ (d : GCounter) (op : GCounterIncrement) (r : Nat),
      (d.apply op).counts.lookup r =
        if r = op.replicaId then
          some ((d.counts.lookup op.replicaId).getD 0 + op.amount)
        else d.counts.lookup r) := by
  refine ⟨fun c amount => ⟨rfl, rfl⟩, fun d op r => ?_⟩
  by_cases hr : r = op.replicaId
  · rw [if_pos hr, hr]
    exact GCounter.gc_apply_lookup d op
  · rw [if_neg hr]
    show (d.counts.insertWith _ _ _).lookup r = _
    rw [SMap.lookup_insertWith, if_neg hr]

/-- C10 witness: instantiating the absent-removal theorem on the empty set
with `e = 9`, `tid = 4` and checking the later insert at `tid2 = 3`. -/
theorem claim_C10_witness :
    (LwwSet.new.elements.lookup 9 = none) ∧
    ((LwwSet.new.remove 9 4).2 = some (.Remove 9 4) ∧
      (LwwSet.new.remove 9 4).1.elements.lookup 9 = some (false, 4) ∧
      (LwwSet.new.remove 9 4).1.contains 9 = false ∧
      (LwwSet.new.remove 9 4).1.len = LwwSet.new.len ∧
      (∀ tid2, tid2 < 4 →
        (LwwSet.new.remove 9 4).1.insert 9 tid2
          = ((LwwSet.new.remove 9 4).1, none))) :=
  ⟨by decide, claim_C10_lwwset_remove_absent LwwSet.new 9 4 (by decide)⟩

end CrdtSpec
